import Mathlib

/-!
Verification of the lane-detection pipeline of this repository.

The repository contains two parallel variants of the same frame pipeline:

* `lane_detection_openmp.cpp` defines a staged pipeline
  (`stage_one` / `stage_two` / `stage_three`) over two manual linked-list
  queues, plus a cooperative OpenMP loop (`parallel_processing`).
* `lane_detection_openmp_v2.cpp` defines a cooperative loop in which the
  master thread ingests frames and emits ordered results while worker
  threads transform frames (`parallel_processing`, BLOCK ONE/TWO/THREE).

Frames are opaque payloads; the per-frame transform (`process_frame`)
is an external pure function and is modelled as a parameter `t : α → α`.
Machine integers of the program (frame counters, queue sizes) stay far
below any overflow bound in every modelled run, so they are embedded as
`Nat`.
-/

namespace LaneDetect

/-- The `work_node` struct of both C++ files: a frame pointer (NULL is
modelled as `none`), the frame id, and the end-of-stream marker.  The
`next` pointer is represented by the position of the node in a list. -/
structure WorkNode (α : Type) where
  frame : Option α
  frame_number : Nat
  is_the_last_node : Bool
deriving DecidableEq, Repr

/-- A manual linked-list queue of the C++ files together with its size
counter (`size_input_work_queue` / `size_output_work_queue`). -/
structure WorkQueue (α : Type) where
  nodes : List (WorkNode α)
  size : Nat
deriving DecidableEq, Repr

/-- The initial queue state set up in `main`: head and tail NULL, size 0. -/
def emptyWorkQueue (α : Type) : WorkQueue α := { nodes := [], size := 0 }

/-- `add_to_input_work_queue` (openmp.cpp:194, v2:165): if the size counter
is 0 the node becomes the single element, otherwise it is appended at the
tail; the size counter is incremented. -/
def add_to_input_work_queue (q : WorkQueue α) (n : WorkNode α) : WorkQueue α :=
  if q.size = 0 then { nodes := [n], size := q.size + 1 }
  else { nodes := q.nodes ++ [n], size := q.size + 1 }

/-- The ordered linear scan of `add_to_output_work_queue` beyond the
empty-queue case (openmp.cpp:243-291, v2:214-262): walking from the head,
the node is placed immediately before the first node whose id is not
smaller (`node_aux_id <= current_id`), or appended at the tail. -/
def ordered_insert (n : WorkNode α) : List (WorkNode α) → List (WorkNode α)
  | [] => [n]
  | c :: rest =>
    if n.frame_number ≤ c.frame_number then n :: c :: rest
    else c :: ordered_insert n rest

/-- `add_to_output_work_queue` (openmp.cpp:228, v2:199): sorted insertion
by `frame_number` with the size counter incremented.  The code reads the
head node when the size counter is nonzero; in every modelled state the
counter equals the list length, so the nonzero branch always sees a
nonempty list. -/
def add_to_output_work_queue (q : WorkQueue α) (n : WorkNode α) : WorkQueue α :=
  if q.size = 0 then { nodes := [n], size := q.size + 1 }
  else { nodes := ordered_insert n q.nodes, size := q.size + 1 }

/-- `remove_from_input_work_queue` (openmp.cpp:304, v2:275): removes and
returns the head node and decrements the size counter.  The documented
precondition of the C function requires a nonempty queue; the empty case
(a NULL dereference in C) is modelled as returning `none` and leaving the
queue unchanged. -/
def remove_from_input_work_queue (q : WorkQueue α) :
    Option (WorkNode α) × WorkQueue α :=
  match q.nodes with
  | [] => (none, q)
  | n :: rest => (some n, { nodes := rest, size := q.size - 1 })

/-- `remove_from_output_work_queue` (openmp.cpp:326, v2:297): same head
removal on the output queue. -/
def remove_from_output_work_queue (q : WorkQueue α) :
    Option (WorkNode α) × WorkQueue α :=
  match q.nodes with
  | [] => (none, q)
  | n :: rest => (some n, { nodes := rest, size := q.size - 1 })

/-- `get_head_id_from_output_work_queue` (openmp.cpp:181, v2:152): the id
of the head node.  The documented precondition requires a nonempty queue;
the empty case is modelled as `none`. -/
def get_head_id_from_output_work_queue (q : WorkQueue α) : Option Nat :=
  match q.nodes with
  | [] => none
  | n :: _ => some n.frame_number

/-- The drain loop at the end of both `parallel_processing` functions
(openmp.cpp:781-784, v2:637-640): `while (size_output_work_queue > 0)
free(remove_from_output_work_queue());`.  The loop runs once per unit of
the size counter; the fuel argument makes that explicit. -/
def drainAux (α : Type) : Nat → WorkQueue α → WorkQueue α
  | 0, q => q
  | fuel + 1, q =>
    if q.size = 0 then q
    else drainAux α fuel (remove_from_output_work_queue q).2

/-- Running the final drain loop on the output queue. -/
def drain_output_work_queue (q : WorkQueue α) : WorkQueue α :=
  drainAux α q.size q

/-- `process_frame` (openmp.cpp:347, v2:318) applied to a work node: the
frame of the node is replaced by the transformed frame.  The transform
itself is the opaque parameter `t`. -/
def process_node (t : α → α) (n : WorkNode α) : WorkNode α :=
  { n with frame := n.frame.map t }

/-! ## The staged pipeline of lane_detection_openmp.cpp

`stage_one` (485), `stage_two` (551, run by `threads_number` threads) and
`stage_three` (612) communicate through the two queues.  Each queue access
is guarded by the corresponding mutex, so an execution is an arbitrary
interleaving of atomic queue operations.  The state below records the
whole pipeline; ghost counters (`popCount`, `procCount`, `termsCreated`,
`termPops`) instrument the removal, transform and sentinel events without
influencing any transition. -/

/-- Thread-local progress of one `stage_two` worker: waiting to pop,
holding a popped node between the two critical sections, or terminated. -/
inductive WorkerPhase (α : Type) where
  | idle
  | busy (n : WorkNode α)
  | done
deriving DecidableEq, Repr

/-- Progress of `stage_one`: still reading frames, or inside the sentinel
loop with `k` terminal nodes left to push (`sending 0` = exited). -/
inductive IngestPhase where
  | reading
  | sending (k : Nat)
deriving DecidableEq, Repr

/-- Nodes held thread-locally by workers between popping and pushing. -/
def phaseNodes : WorkerPhase α → List (WorkNode α)
  | .busy n => [n]
  | _ => []

/-- All nodes currently held by some worker. -/
def busyNodes : List (WorkerPhase α) → List (WorkNode α)
  | [] => []
  | w :: ws => phaseNodes w ++ busyNodes ws

/-- Global state of the staged pipeline of lane_detection_openmp.cpp. -/
structure S1 (α : Type) where
  /-- frames the source has not yet produced -/
  pending : List α
  /-- the global `nframes` counter (initialised to 0 in main:799) -/
  nframes : Nat
  ingest : IngestPhase
  inQ : WorkQueue α
  outQ : WorkQueue α
  workers : List (WorkerPhase α)
  /-- the `current_frame` cursor of stage_three (initialised to 0) -/
  current_frame : Nat
  /-- payloads written by `send_frame_to_display`, in emission order -/
  emitted : List α
  emitDone : Bool
  /-- ghost: removals of non-terminal nodes from the input queue, per id -/
  popCount : Nat → Nat
  /-- ghost: `process_frame` invocations, per id -/
  procCount : Nat → Nat
  /-- ghost: terminal nodes created by stage_one -/
  termsCreated : Nat
  /-- ghost: terminal nodes popped, per worker index -/
  termPops : Nat → Nat

/-- Initial state: globals from main (openmp.cpp:792-799), all threads at
their loop heads. -/
def S1.init (α : Type) (frames : List α) (N : Nat) : S1 α :=
  { pending := frames
    nframes := 0
    ingest := .reading
    inQ := emptyWorkQueue α
    outQ := emptyWorkQueue α
    workers := List.replicate N .idle
    current_frame := 0
    emitted := []
    emitDone := false
    popCount := fun _ => 0
    procCount := fun _ => 0
    termsCreated := 0
    termPops := fun _ => 0 }

/-- One atomic transition of the staged pipeline.  Every queue operation
happens under its mutex in the C code, so it is one step here; the frame
transform runs outside both locks and is folded into the push of its
result. -/
inductive Step1 (t : α → α) : S1 α → S1 α → Prop where
  /-- stage_one:516-532, a successful capture: the node gets id
  `nframes + 1` (the counter is incremented before use) and is pushed. -/
  | ingest_frame (s : S1 α) (p : α) (rest : List α)
      (hr : s.ingest = .reading) (hp : s.pending = p :: rest) :
      Step1 t s { s with
        pending := rest
        nframes := s.nframes + 1
        inQ := add_to_input_work_queue s.inQ
          { frame := some p, frame_number := s.nframes + 1,
            is_the_last_node := false } }
  /-- stage_one:495-498, the empty capture: `nframes` is incremented and
  the sentinel loop over `threads_number` iterations begins. -/
  | ingest_empty (s : S1 α) (N : Nat)
      (hr : s.ingest = .reading) (hp : s.pending = [])
      (hw : s.workers.length = N) :
      Step1 t s { s with
        nframes := s.nframes + 1
        ingest := .sending N }
  /-- stage_one:498-512, one iteration of the sentinel loop: a terminal
  node with frame NULL and id `nframes` is pushed. -/
  | ingest_sentinel (s : S1 α) (k : Nat)
      (hs : s.ingest = .sending (k + 1)) :
      Step1 t s { s with
        inQ := add_to_input_work_queue s.inQ
          { frame := none, frame_number := s.nframes,
            is_the_last_node := true }
        ingest := .sending k
        termsCreated := s.termsCreated + 1 }
  /-- stage_two:556-566, the pop under the input lock by worker `i`. -/
  | worker_pop (s : S1 α) (i : Nat) (n : WorkNode α) (q : WorkQueue α)
      (hw : s.workers.get? i = some .idle)
      (hq : remove_from_input_work_queue s.inQ = (some n, q)) :
      Step1 t s { s with
        inQ := q
        workers := s.workers.set i (.busy n)
        popCount := fun j =>
          if n.frame_number = j ∧ n.is_the_last_node = false
          then s.popCount j + 1 else s.popCount j
        termPops := fun j =>
          if j = i ∧ n.is_the_last_node = true
          then s.termPops j + 1 else s.termPops j }
  /-- stage_two:580-588, the non-terminal branch: `process_frame` then the
  push of the processed node under the output lock; the worker loops. -/
  | worker_push_frame (s : S1 α) (i : Nat) (n : WorkNode α)
      (hw : s.workers.get? i = some (.busy n))
      (hn : n.is_the_last_node = false) :
      Step1 t s { s with
        outQ := add_to_output_work_queue s.outQ (process_node t n)
        workers := s.workers.set i .idle
        procCount := fun j =>
          if n.frame_number = j then s.procCount j + 1
          else s.procCount j }
  /-- stage_two:569-577, the terminal branch: the node is forwarded
  unchanged and the worker exits its loop. -/
  | worker_push_last (s : S1 α) (i : Nat) (n : WorkNode α)
      (hw : s.workers.get? i = some (.busy n))
      (hn : n.is_the_last_node = true) :
      Step1 t s { s with
        outQ := add_to_output_work_queue s.outQ n
        workers := s.workers.set i .done }
  /-- stage_three:614-644, a non-terminal emission: the cursor was
  incremented at the loop head, the head of the output queue carries the
  awaited id, the node is removed and its frame sent to the display. -/
  | emit_frame (s : S1 α) (n : WorkNode α) (q : WorkQueue α)
      (he : s.emitDone = false)
      (hh : get_head_id_from_output_work_queue s.outQ
        = some (s.current_frame + 1))
      (hq : remove_from_output_work_queue s.outQ = (some n, q))
      (hn : n.is_the_last_node = false) :
      Step1 t s { s with
        outQ := q
        current_frame := s.current_frame + 1
        emitted := s.emitted ++ n.frame.toList }
  /-- stage_three:637-641, the terminal emission: stage_three removes the
  awaited node, sees the end-of-stream marker and exits. -/
  | emit_last (s : S1 α) (n : WorkNode α) (q : WorkQueue α)
      (he : s.emitDone = false)
      (hh : get_head_id_from_output_work_queue s.outQ
        = some (s.current_frame + 1))
      (hq : remove_from_output_work_queue s.outQ = (some n, q))
      (hn : n.is_the_last_node = true) :
      Step1 t s { s with
        outQ := q
        current_frame := s.current_frame + 1
        emitDone := true }

/-- States reachable by the staged pipeline on the stream `frames` with
`N` worker threads. -/
inductive Reach1 (t : α → α) (frames : List α) (N : Nat) : S1 α → Prop where
  | init : Reach1 t frames N (S1.init α frames N)
  | step (s s' : S1 α) : Reach1 t frames N s → Step1 t s s' →
      Reach1 t frames N s'

/-- All three stages have exited their loops. -/
def Completed1 (s : S1 α) : Prop :=
  s.ingest = .sending 0 ∧ (∀ w ∈ s.workers, w = WorkerPhase.done)
    ∧ s.emitDone = true

instance [DecidableEq α] (s : S1 α) : Decidable (Completed1 s) := by
  unfold Completed1; infer_instance

/-! ## The cooperative pipeline of lane_detection_openmp_v2.cpp

`parallel_processing` (v2:450) runs `threads_number + 1` OpenMP threads.
Thread 0 (the master) executes BLOCK ONE (ingest, v2:473-532) and BLOCK
THREE (emit, v2:588-632); threads 1..`threads_number` execute BLOCK TWO
(v2:536-584).  All queue accesses are lock protected, so an execution is
again an interleaving of atomic operations.  `nframes` and
`current_frame` are initialised to 1 (v2:654-655); on end of stream a
single terminal node is pushed and `is_there_any_frame` is cleared, and
the worker that pops it clears `is_there_any_work`. -/

/-- Global state of the cooperative pipeline of
lane_detection_openmp_v2.cpp.  `workers` holds the `threads_number`
non-master threads. -/
structure S2 (α : Type) where
  pending : List α
  /-- `nframes`, initialised to 1 (v2:655) -/
  nframes : Nat
  is_there_any_frame : Bool
  is_there_any_work : Bool
  finished : Bool
  inQ : WorkQueue α
  outQ : WorkQueue α
  workers : List (WorkerPhase α)
  /-- `current_frame`, initialised to 1 (v2:654) -/
  current_frame : Nat
  emitted : List α
  /-- ghost: terminal nodes created by BLOCK ONE -/
  termsCreated : Nat

/-- Initial state of the cooperative pipeline (globals from v2:648-656,
flags from v2:452-454). -/
def S2.init (α : Type) (frames : List α) (N : Nat) : S2 α :=
  { pending := frames
    nframes := 1
    is_there_any_frame := true
    is_there_any_work := true
    finished := false
    inQ := emptyWorkQueue α
    outQ := emptyWorkQueue α
    workers := List.replicate N .idle
    current_frame := 1
    emitted := []
    termsCreated := 0 }

/-- One atomic transition of the cooperative pipeline. -/
inductive Step2 (t : α → α) : S2 α → S2 α → Prop where
  /-- BLOCK ONE, v2:506-530: the master captures a frame, assigns it id
  `nframes`, increments the counter and pushes the node. -/
  | ingest_frame (s : S2 α) (p : α) (rest : List α)
      (hf : s.finished = false) (ha : s.is_there_any_frame = true)
      (hp : s.pending = p :: rest) :
      Step2 t s { s with
        pending := rest
        nframes := s.nframes + 1
        inQ := add_to_input_work_queue s.inQ
          { frame := some p, frame_number := s.nframes,
            is_the_last_node := false } }
  /-- BLOCK ONE, v2:481-505: the empty capture: one terminal node with id
  `nframes` is pushed and `is_there_any_frame` is cleared. -/
  | ingest_empty (s : S2 α)
      (hf : s.finished = false) (ha : s.is_there_any_frame = true)
      (hp : s.pending = []) :
      Step2 t s { s with
        nframes := s.nframes + 1
        inQ := add_to_input_work_queue s.inQ
          { frame := none, frame_number := s.nframes,
            is_the_last_node := true }
        is_there_any_frame := false
        termsCreated := s.termsCreated + 1 }
  /-- BLOCK TWO, v2:536-547: worker `i` passes the `is_there_any_work`
  guard, takes the input lock, finds the queue nonempty and pops. -/
  | worker_pop (s : S2 α) (i : Nat) (n : WorkNode α) (q : WorkQueue α)
      (ha : s.is_there_any_work = true)
      (hw : s.workers.get? i = some .idle)
      (hq : remove_from_input_work_queue s.inQ = (some n, q)) :
      Step2 t s { s with
        inQ := q
        workers := s.workers.set i (.busy n) }
  /-- BLOCK TWO, v2:563-577: the non-terminal branch: `process_frame`
  then the push of the processed node; the worker returns to its loop. -/
  | worker_push_frame (s : S2 α) (i : Nat) (n : WorkNode α)
      (hw : s.workers.get? i = some (.busy n))
      (hn : n.is_the_last_node = false) :
      Step2 t s { s with
        outQ := add_to_output_work_queue s.outQ (process_node t n)
        workers := s.workers.set i .idle }
  /-- BLOCK TWO, v2:549-562: the terminal branch: the node is forwarded
  unchanged and `is_there_any_work` is cleared, stopping all workers. -/
  | worker_push_last (s : S2 α) (i : Nat) (n : WorkNode α)
      (hw : s.workers.get? i = some (.busy n))
      (hn : n.is_the_last_node = true) :
      Step2 t s { s with
        outQ := add_to_output_work_queue s.outQ n
        workers := s.workers.set i .idle
        is_there_any_work := false }
  /-- BLOCK THREE, v2:588-625: the head of the output queue carries the
  awaited id and is not terminal: it is removed, sent to the display, and
  the cursor advances. -/
  | emit_frame (s : S2 α) (n : WorkNode α) (q : WorkQueue α)
      (hf : s.finished = false)
      (hh : get_head_id_from_output_work_queue s.outQ
        = some s.current_frame)
      (hq : remove_from_output_work_queue s.outQ = (some n, q))
      (hn : n.is_the_last_node = false) :
      Step2 t s { s with
        outQ := q
        current_frame := s.current_frame + 1
        emitted := s.emitted ++ n.frame.toList }
  /-- BLOCK THREE, v2:607-611: the awaited head is the terminal node:
  it is removed and `finished` is set, ending the run. -/
  | emit_last (s : S2 α) (n : WorkNode α) (q : WorkQueue α)
      (hf : s.finished = false)
      (hh : get_head_id_from_output_work_queue s.outQ
        = some s.current_frame)
      (hq : remove_from_output_work_queue s.outQ = (some n, q))
      (hn : n.is_the_last_node = true) :
      Step2 t s { s with
        outQ := q
        finished := true }

/-- States reachable by the cooperative pipeline on the stream `frames`
with `N` worker threads (plus the master). -/
inductive Reach2 (t : α → α) (frames : List α) (N : Nat) : S2 α → Prop where
  | init : Reach2 t frames N (S2.init α frames N)
  | step (s s' : S2 α) : Reach2 t frames N s → Step2 t s s' →
      Reach2 t frames N s'

/-- The cooperative run has ended: the master set `finished`, which every
thread observes at its loop head. -/
def Completed2 (s : S2 α) : Prop := s.finished = true

/-! ## Queue operation sequences

Used to state the FIFO contract of the input queue and the size-counter
invariant independently of the pipelines. -/

/-- One client operation on the input queue. -/
inductive QueueOp (α : Type) where
  | push (n : WorkNode α)
  | pop
deriving Repr

/-- Runs a sequence of operations, returning the final queue and the
popped nodes in pop order.  A pop of an empty queue keeps the queue
unchanged and returns nothing, mirroring `remove_from_input_work_queue`
above. -/
def runQueueOps (q : WorkQueue α) : List (QueueOp α) →
    WorkQueue α × List (WorkNode α)
  | [] => (q, [])
  | .push n :: ops => runQueueOps (add_to_input_work_queue q n) ops
  | .pop :: ops =>
    match remove_from_input_work_queue q with
    | (some n, q2) =>
      let r := runQueueOps q2 ops
      (r.1, n :: r.2)
    | (none, q2) => runQueueOps q2 ops

/-- The nodes pushed by a sequence of operations, in arrival order. -/
def pushedNodes : List (QueueOp α) → List (WorkNode α)
  | [] => []
  | .push n :: ops => n :: pushedNodes ops
  | .pop :: ops => pushedNodes ops

/-! ## The process entry points

`main` of lane_detection_openmp.cpp (787-833), of
lane_detection_openmp_v2.cpp (643-691) and of lane_detection_seq.cpp
(59-193).  All three read the arguments, initialise globals, open the
capture (retrying the argument as a numeric camera index if the first
open fails, openmp.cpp:807-808, v2:664-665, seq:67-68), open the video
writer and run the processing unconditionally: no branch of any of the
three functions prints an error or exits early. -/

/-- Outcome of a `main` run up to the start of the processing loop. -/
structure MainResult where
  /-- whether any error was printed before the pipeline -/
  error_reported : Bool
  /-- whether the process exited before the pipeline -/
  aborted_before_pipeline : Bool
  /-- whether the processing (parallel_processing or the sequential
  loop) was entered -/
  pipeline_ran : Bool
  /-- whether the capture was open when the processing started -/
  capture_opened : Bool
deriving DecidableEq, Repr

/-- `main` of lane_detection_openmp.cpp: `threads_number` is read
(790) without any validation; `capture.open(arg)` (804) is retried as a
camera index (807-808); `parallel_processing` is called unconditionally
(821). -/
def main_openmp (threads_number : Int) (file_opens camera_opens : Bool) :
    MainResult :=
  let opened := if file_opens then true else camera_opens
  { error_reported := false
    aborted_before_pipeline := false
    pipeline_ran := true
    capture_opened := opened }

/-- `main` of lane_detection_openmp_v2.cpp (643-691): identical control
flow (argument read at 646, open retry at 664-665, unconditional
`parallel_processing` at 678). -/
def main_openmp_v2 (threads_number : Int) (file_opens camera_opens : Bool) :
    MainResult :=
  let opened := if file_opens then true else camera_opens
  { error_reported := false
    aborted_before_pipeline := false
    pipeline_ran := true
    capture_opened := opened }

/-- `main` of lane_detection_seq.cpp (59-193): open retry at 67-68, then
the frame loop runs unconditionally (78). -/
def main_seq (file_opens camera_opens : Bool) : MainResult :=
  let opened := if file_opens then true else camera_opens
  { error_reported := false
    aborted_before_pipeline := false
    pipeline_ran := true
    capture_opened := opened }

/-! ## Counting helpers and node-shape predicates -/

/-- Whether a worker has exited its loop. -/
def isDone : WorkerPhase α → Bool
  | .done => true
  | _ => false

/-- Number of non-terminal nodes with id `k` in a node list. -/
def cntId (k : Nat) (l : List (WorkNode α)) : Nat :=
  l.countP (fun n => n.frame_number == k && !n.is_the_last_node)

/-- Number of terminal nodes in a node list. -/
def cntTerm (l : List (WorkNode α)) : Nat :=
  l.countP (fun n => n.is_the_last_node)

/-- Whether frame `k` of a stream of `M` frames has already been emitted
when the cursor is at `c` (1 when yes, 0 when no). -/
def emitCnt (M c k : Nat) : Nat :=
  if 1 ≤ k ∧ k ≤ c ∧ k ≤ M then 1 else 0

/-- Frames captured so far by stage_one: `nframes` while reading, all of
them once the sentinel loop started. -/
def cap1 (frames : List α) (s : S1 α) : Nat :=
  match s.ingest with
  | .reading => s.nframes
  | .sending _ => frames.length

/-- Frames captured so far by BLOCK ONE of v2 (`nframes` starts at 1). -/
def cap2 (frames : List α) (s : S2 α) : Nat :=
  if s.is_there_any_frame then s.nframes - 1 else frames.length

/-- Shape of a node between creation and processing: a terminal node
carries no frame and the id `length + 1`; a frame node carries the
unprocessed source frame of its id, which is at most `cap`. -/
def RawAt (frames : List α) (cap : Nat) (n : WorkNode α) : Prop :=
  if n.is_the_last_node then
    n.frame = none ∧ n.frame_number = frames.length + 1
  else
    1 ≤ n.frame_number ∧ n.frame_number ≤ cap
      ∧ n.frame = frames.get? (n.frame_number - 1)

/-- Shape of a node in the output queue: as `RawAt`, but a frame node
carries the transformed frame of its id. -/
def ProcAt (t : α → α) (frames : List α) (cap : Nat) (n : WorkNode α) :
    Prop :=
  if n.is_the_last_node then
    n.frame = none ∧ n.frame_number = frames.length + 1
  else
    1 ≤ n.frame_number ∧ n.frame_number ≤ cap
      ∧ n.frame = (frames.get? (n.frame_number - 1)).map t

/-- The output queue is sorted by frame id (ascending). -/
def OutSorted (l : List (WorkNode α)) : Prop :=
  l.Pairwise (fun a b => a.frame_number ≤ b.frame_number)

/-- Every node currently inside the staged pipeline. -/
def allNodes1 (s : S1 α) : List (WorkNode α) :=
  s.inQ.nodes ++ busyNodes s.workers ++ s.outQ.nodes

/-- Every node currently inside the cooperative pipeline. -/
def allNodes2 (s : S2 α) : List (WorkNode α) :=
  s.inQ.nodes ++ busyNodes s.workers ++ s.outQ.nodes

/-- Inductive invariant of the staged pipeline
(lane_detection_openmp.cpp). -/
structure Inv1 (t : α → α) (frames : List α) (N : Nat) (s : S1 α) :
    Prop where
  inq_size : s.inQ.size = s.inQ.nodes.length
  outq_size : s.outQ.size = s.outQ.nodes.length
  workers_len : s.workers.length = N
  src_reading : s.ingest = .reading →
    s.nframes ≤ frames.length ∧ s.pending = frames.drop s.nframes
  src_sending : ∀ k, s.ingest = .sending k →
    k ≤ N ∧ s.nframes = frames.length + 1 ∧ s.pending = []
  inq_raw : ∀ n ∈ s.inQ.nodes, RawAt frames (cap1 frames s) n
  busy_raw : ∀ n ∈ busyNodes s.workers, RawAt frames (cap1 frames s) n
  outq_proc : ∀ n ∈ s.outQ.nodes, ProcAt t frames (cap1 frames s) n
  outq_sorted : OutSorted s.outQ.nodes
  cursor_le : s.emitDone = false → s.current_frame ≤ cap1 frames s
  cursor_done : s.emitDone = true →
    s.current_frame = frames.length + 1 ∧ frames.length ≤ cap1 frames s
  emitted_eq : s.emitted = (frames.take s.current_frame).map t
  ledger : ∀ k, 1 ≤ k → k ≤ cap1 frames s →
    cntId k s.inQ.nodes + cntId k (busyNodes s.workers)
      + cntId k s.outQ.nodes
      + emitCnt frames.length s.current_frame k = 1
  pop_eq : ∀ k, s.popCount k = cntId k (busyNodes s.workers)
      + cntId k s.outQ.nodes + emitCnt frames.length s.current_frame k
  proc_eq : ∀ k, s.procCount k = cntId k s.outQ.nodes
      + emitCnt frames.length s.current_frame k
  terms_reading : s.ingest = .reading → s.termsCreated = 0
  terms_sending : ∀ k, s.ingest = .sending k → s.termsCreated = N - k
  term_ledger : cntTerm s.inQ.nodes + cntTerm (busyNodes s.workers)
      + cntTerm s.outQ.nodes + (if s.emitDone then 1 else 0)
      = s.termsCreated
  term_pops_idle : ∀ i, s.workers.get? i = some .idle → s.termPops i = 0
  term_pops_busy : ∀ i n, s.workers.get? i = some (.busy n) →
    s.termPops i = (if n.is_the_last_node then 1 else 0)
  term_pops_done : ∀ i, s.workers.get? i = some .done → s.termPops i = 1
  term_pops_out : ∀ i, s.workers.length ≤ i → s.termPops i = 0
  done_count : s.workers.countP isDone
      = cntTerm s.outQ.nodes + (if s.emitDone then 1 else 0)

/-- Inductive invariant of the cooperative pipeline
(lane_detection_openmp_v2.cpp). -/
structure Inv2 (t : α → α) (frames : List α) (N : Nat) (s : S2 α) :
    Prop where
  inq_size : s.inQ.size = s.inQ.nodes.length
  outq_size : s.outQ.size = s.outQ.nodes.length
  workers_len : s.workers.length = N
  src_t : s.is_there_any_frame = true →
    1 ≤ s.nframes ∧ s.nframes - 1 ≤ frames.length
      ∧ s.pending = frames.drop (s.nframes - 1)
  src_f : s.is_there_any_frame = false →
    s.nframes = frames.length + 2 ∧ s.pending = []
  inq_raw : ∀ n ∈ s.inQ.nodes, RawAt frames (cap2 frames s) n
  busy_raw : ∀ n ∈ busyNodes s.workers, RawAt frames (cap2 frames s) n
  outq_proc : ∀ n ∈ s.outQ.nodes, ProcAt t frames (cap2 frames s) n
  outq_sorted : OutSorted s.outQ.nodes
  cursor_lo : 1 ≤ s.current_frame
  cursor_le : s.finished = false →
    s.current_frame - 1 ≤ cap2 frames s
  cursor_done : s.finished = true → s.current_frame = frames.length + 1
  emitted_eq : s.emitted = (frames.take (s.current_frame - 1)).map t
  terms_created : s.termsCreated = (if s.is_there_any_frame then 0 else 1)
  term_flag : ∀ n ∈ allNodes2 s, n.is_the_last_node = true →
    s.is_there_any_frame = false
  fin_flag : s.finished = true → s.is_there_any_frame = false

/-- Removal drill on the reassembly buffer: for each expected id in turn,
the head is removed when its id matches (the check of stage_three:628 and
BLOCK THREE v2:599), otherwise nothing happens for that id. -/
def remove_in_expected_order (q : WorkQueue α) :
    List Nat → List (WorkNode α)
  | [] => []
  | e :: es =>
    if get_head_id_from_output_work_queue q = some e then
      match remove_from_output_work_queue q with
      | (some n, q2) => n :: remove_in_expected_order q2 es
      | (none, q2) => remove_in_expected_order q2 es
    else remove_in_expected_order q es

/-! ## Concrete runs used by witnesses and counterexamples

Run A: the staged pipeline on one frame `7` with one worker and the
transform `Nat.succ`. -/

/-- The single frame node of run A (id 1). -/
def frameNodeA : WorkNode Nat :=
  { frame := some 7, frame_number := 1, is_the_last_node := false }

/-- The terminal node of run A (id 2 = frame count + 1). -/
def termNodeA : WorkNode Nat :=
  { frame := none, frame_number := 2, is_the_last_node := true }

/-- Run A, start. -/
def s1d0 : S1 Nat := S1.init Nat [7] 1

/-- Run A after stage_one captured frame 7. -/
def s1d1 : S1 Nat := { s1d0 with
  pending := []
  nframes := s1d0.nframes + 1
  inQ := add_to_input_work_queue s1d0.inQ
    { frame := some 7, frame_number := s1d0.nframes + 1,
      is_the_last_node := false } }

/-- Run A after stage_one saw the empty capture. -/
def s1d2 : S1 Nat := { s1d1 with
  nframes := s1d1.nframes + 1
  ingest := .sending 1 }

/-- Run A after stage_one pushed its single sentinel. -/
def s1d3 : S1 Nat := { s1d2 with
  inQ := add_to_input_work_queue s1d2.inQ
    { frame := none, frame_number := s1d2.nframes,
      is_the_last_node := true }
  ingest := .sending 0
  termsCreated := s1d2.termsCreated + 1 }

/-- Run A after worker 0 popped the frame node. -/
def s1d4 : S1 Nat := { s1d3 with
  inQ := (remove_from_input_work_queue s1d3.inQ).2
  workers := s1d3.workers.set 0 (.busy frameNodeA)
  popCount := fun j =>
    if frameNodeA.frame_number = j ∧ frameNodeA.is_the_last_node = false
    then s1d3.popCount j + 1 else s1d3.popCount j
  termPops := fun j =>
    if j = 0 ∧ frameNodeA.is_the_last_node = true
    then s1d3.termPops j + 1 else s1d3.termPops j }

/-- Run A after worker 0 processed and pushed the frame node. -/
def s1d5 : S1 Nat := { s1d4 with
  outQ := add_to_output_work_queue s1d4.outQ (process_node Nat.succ frameNodeA)
  workers := s1d4.workers.set 0 .idle
  procCount := fun j =>
    if frameNodeA.frame_number = j then s1d4.procCount j + 1
    else s1d4.procCount j }

/-- Run A after worker 0 popped the sentinel. -/
def s1d6 : S1 Nat := { s1d5 with
  inQ := (remove_from_input_work_queue s1d5.inQ).2
  workers := s1d5.workers.set 0 (.busy termNodeA)
  popCount := fun j =>
    if termNodeA.frame_number = j ∧ termNodeA.is_the_last_node = false
    then s1d5.popCount j + 1 else s1d5.popCount j
  termPops := fun j =>
    if j = 0 ∧ termNodeA.is_the_last_node = true
    then s1d5.termPops j + 1 else s1d5.termPops j }

/-- Run A after worker 0 forwarded the sentinel and exited. -/
def s1d7 : S1 Nat := { s1d6 with
  outQ := add_to_output_work_queue s1d6.outQ termNodeA
  workers := s1d6.workers.set 0 .done }

/-- Run A after stage_three emitted frame 1. -/
def s1d8 : S1 Nat := { s1d7 with
  outQ := (remove_from_output_work_queue s1d7.outQ).2
  current_frame := s1d7.current_frame + 1
  emitted := s1d7.emitted ++ (process_node Nat.succ frameNodeA).frame.toList }

/-- Run A after stage_three consumed the sentinel and exited. -/
def s1d9 : S1 Nat := { s1d8 with
  outQ := (remove_from_output_work_queue s1d8.outQ).2
  current_frame := s1d8.current_frame + 1
  emitDone := true }

/-! Run B: the cooperative v2 pipeline on the empty stream with two
workers.  BLOCK ONE pushes a single sentinel (id 1). -/

/-- The terminal node of run B (id 1 = frame count + 1). -/
def termNodeB : WorkNode Nat :=
  { frame := none, frame_number := 1, is_the_last_node := true }

/-- Run B, start. -/
def s2e0 : S2 Nat := S2.init Nat [] 2

/-- Run B after the master saw the empty capture and pushed the single
sentinel. -/
def s2e1 : S2 Nat := { s2e0 with
  nframes := s2e0.nframes + 1
  inQ := add_to_input_work_queue s2e0.inQ
    { frame := none, frame_number := s2e0.nframes,
      is_the_last_node := true }
  is_there_any_frame := false
  termsCreated := s2e0.termsCreated + 1 }

/-- Run B after worker 0 popped the sentinel. -/
def s2e2 : S2 Nat := { s2e1 with
  inQ := (remove_from_input_work_queue s2e1.inQ).2
  workers := s2e1.workers.set 0 (.busy termNodeB) }

/-- Run B after worker 0 forwarded the sentinel and cleared
`is_there_any_work`. -/
def s2e3 : S2 Nat := { s2e2 with
  outQ := add_to_output_work_queue s2e2.outQ termNodeB
  workers := s2e2.workers.set 0 .idle
  is_there_any_work := false }

/-- Run B after the master consumed the sentinel and set `finished`. -/
def s2e4 : S2 Nat := { s2e3 with
  outQ := (remove_from_output_work_queue s2e3.outQ).2
  finished := true }

/-! Run C: the staged pipeline on the empty stream with two workers.
stage_one pushes two sentinels carrying the same id 1, and both end up
simultaneously in the reassembly buffer. -/

/-- The terminal nodes of run C (both id 1 = frame count + 1). -/
def termNodeC : WorkNode Nat :=
  { frame := none, frame_number := 1, is_the_last_node := true }

/-- Run C, start. -/
def s1f0 : S1 Nat := S1.init Nat [] 2

/-- Run C after stage_one saw the empty capture. -/
def s1f1 : S1 Nat := { s1f0 with
  nframes := s1f0.nframes + 1
  ingest := .sending 2 }

/-- Run C after the first sentinel push. -/
def s1f2 : S1 Nat := { s1f1 with
  inQ := add_to_input_work_queue s1f1.inQ
    { frame := none, frame_number := s1f1.nframes,
      is_the_last_node := true }
  ingest := .sending 1
  termsCreated := s1f1.termsCreated + 1 }

/-- Run C after the second sentinel push. -/
def s1f3 : S1 Nat := { s1f2 with
  inQ := add_to_input_work_queue s1f2.inQ
    { frame := none, frame_number := s1f2.nframes,
      is_the_last_node := true }
  ingest := .sending 0
  termsCreated := s1f2.termsCreated + 1 }

/-- Run C after worker 0 popped the first sentinel. -/
def s1f4 : S1 Nat := { s1f3 with
  inQ := (remove_from_input_work_queue s1f3.inQ).2
  workers := s1f3.workers.set 0 (.busy termNodeC)
  popCount := fun j =>
    if termNodeC.frame_number = j ∧ termNodeC.is_the_last_node = false
    then s1f3.popCount j + 1 else s1f3.popCount j
  termPops := fun j =>
    if j = 0 ∧ termNodeC.is_the_last_node = true
    then s1f3.termPops j + 1 else s1f3.termPops j }

/-- Run C after worker 1 popped the second sentinel. -/
def s1f5 : S1 Nat := { s1f4 with
  inQ := (remove_from_input_work_queue s1f4.inQ).2
  workers := s1f4.workers.set 1 (.busy termNodeC)
  popCount := fun j =>
    if termNodeC.frame_number = j ∧ termNodeC.is_the_last_node = false
    then s1f4.popCount j + 1 else s1f4.popCount j
  termPops := fun j =>
    if j = 1 ∧ termNodeC.is_the_last_node = true
    then s1f4.termPops j + 1 else s1f4.termPops j }

/-- Run C after worker 0 forwarded its sentinel. -/
def s1f6 : S1 Nat := { s1f5 with
  outQ := add_to_output_work_queue s1f5.outQ termNodeC
  workers := s1f5.workers.set 0 .done }

/-- Run C after worker 1 forwarded its sentinel: the buffer now holds two
nodes with the same frame id 1. -/
def s1f7 : S1 Nat := { s1f6 with
  outQ := add_to_output_work_queue s1f6.outQ termNodeC
  workers := s1f6.workers.set 1 .done }

/-! ## Basic queue lemmas -/

theorem add_to_input_size (q : WorkQueue α) (n : WorkNode α) :
    (add_to_input_work_queue q n).size = q.size + 1 := by
  unfold add_to_input_work_queue
  split <;> rfl

theorem add_to_input_nodes (q : WorkQueue α) (n : WorkNode α)
    (h : q.size = q.nodes.length) :
    (add_to_input_work_queue q n).nodes = q.nodes ++ [n] := by
  unfold add_to_input_work_queue
  split
  · rename_i h0
    rw [h] at h0
    rw [List.length_eq_zero] at h0
    simp [h0]
  · rfl

theorem add_to_input_consistent (q : WorkQueue α) (n : WorkNode α)
    (h : q.size = q.nodes.length) :
    (add_to_input_work_queue q n).size
      = (add_to_input_work_queue q n).nodes.length := by
  rw [add_to_input_size, add_to_input_nodes q n h]
  simp [h]

theorem ordered_insert_perm (n : WorkNode α) (l : List (WorkNode α)) :
    (ordered_insert n l).Perm (n :: l) := by
  induction l with
  | nil => simp [ordered_insert]
  | cons c rest ih =>
    unfold ordered_insert
    split
    · exact List.Perm.refl _
    · exact (ih.cons c).trans (List.Perm.swap n c rest)

theorem ordered_insert_length (n : WorkNode α) (l : List (WorkNode α)) :
    (ordered_insert n l).length = l.length + 1 := by
  have := (ordered_insert_perm n l).length_eq
  simpa using this

theorem add_to_output_size (q : WorkQueue α) (n : WorkNode α) :
    (add_to_output_work_queue q n).size = q.size + 1 := by
  unfold add_to_output_work_queue
  split <;> rfl

theorem add_to_output_nodes_perm (q : WorkQueue α) (n : WorkNode α)
    (h : q.size = q.nodes.length) :
    (add_to_output_work_queue q n).nodes.Perm (n :: q.nodes) := by
  unfold add_to_output_work_queue
  split
  · rename_i h0
    rw [h] at h0
    rw [List.length_eq_zero] at h0
    simp [h0]
  · exact ordered_insert_perm n q.nodes

theorem add_to_output_consistent (q : WorkQueue α) (n : WorkNode α)
    (h : q.size = q.nodes.length) :
    (add_to_output_work_queue q n).size
      = (add_to_output_work_queue q n).nodes.length := by
  rw [add_to_output_size, (add_to_output_nodes_perm q n h).length_eq]
  simp [h]

theorem ordered_insert_sorted (n : WorkNode α) (l : List (WorkNode α))
    (h : OutSorted l) : OutSorted (ordered_insert n l) := by
  induction l with
  | nil => simp [ordered_insert, OutSorted]
  | cons c rest ih =>
    unfold OutSorted at h
    rw [List.pairwise_cons] at h
    obtain ⟨hc, hrest⟩ := h
    unfold ordered_insert
    split
    · rename_i hle
      unfold OutSorted
      rw [List.pairwise_cons]
      constructor
      · intro b hb
        rcases List.mem_cons.mp hb with hb | hb
        · subst hb; exact hle
        · exact le_trans hle (hc b hb)
      · rw [List.pairwise_cons]
        exact ⟨hc, hrest⟩
    · rename_i hgt
      have hlt : c.frame_number ≤ n.frame_number := le_of_not_le hgt
      unfold OutSorted
      rw [List.pairwise_cons]
      constructor
      · intro b hb
        have hb2 := (ordered_insert_perm n rest).mem_iff.mp hb
        rcases List.mem_cons.mp hb2 with hb2 | hb2
        · subst hb2; exact hlt
        · exact hc b hb2
      · exact ih hrest

theorem add_to_output_sorted (q : WorkQueue α) (n : WorkNode α)
    (h : OutSorted q.nodes) :
    OutSorted (add_to_output_work_queue q n).nodes := by
  unfold add_to_output_work_queue
  split
  · simp [OutSorted]
  · exact ordered_insert_sorted n q.nodes h

theorem sorted_head_min (l : List (WorkNode α)) (h : OutSorted l)
    (n : WorkNode α) (rest : List (WorkNode α)) (hl : l = n :: rest) :
    ∀ m ∈ l, n.frame_number ≤ m.frame_number := by
  subst hl
  unfold OutSorted at h
  rw [List.pairwise_cons] at h
  intro m hm
  rcases List.mem_cons.mp hm with hm | hm
  · subst hm; exact le_refl _
  · exact h.1 m hm

theorem drainAux_empty (l : List (WorkNode α)) :
    ∀ s, s = l.length → drainAux α s { nodes := l, size := s }
      = emptyWorkQueue α := by
  induction l with
  | nil =>
    intro s hs
    subst hs
    rfl
  | cons n rest ih =>
    intro s hs
    subst hs
    unfold drainAux
    simp [remove_from_output_work_queue]
    exact ih rest.length rfl

theorem drain_empty (q : WorkQueue α) (h : q.size = q.nodes.length) :
    drain_output_work_queue q = emptyWorkQueue α := by
  unfold drain_output_work_queue
  have : q = { nodes := q.nodes, size := q.size } := rfl
  rw [this, h]
  exact drainAux_empty q.nodes q.nodes.length rfl

/-! ## Worker-list lemmas -/

theorem perm_append_middle (a b c : List (WorkNode α)) :
    (a ++ (b ++ c)).Perm (b ++ (a ++ c)) := by
  rw [← List.append_assoc, ← List.append_assoc]
  exact (List.perm_append_comm).append_right c

theorem busyNodes_set_perm (ws : List (WorkerPhase α)) :
    ∀ (i : Nat) (w w' : WorkerPhase α), ws.get? i = some w →
      (busyNodes (ws.set i w') ++ phaseNodes w).Perm
        (phaseNodes w' ++ busyNodes ws) := by
  induction ws with
  | nil => intro i w w' h; simp at h
  | cons w0 ws ih =>
    intro i w w' h
    cases i with
    | zero =>
      injection h with h
      subst h
      show ((phaseNodes w' ++ busyNodes ws) ++ phaseNodes w0).Perm
        (phaseNodes w' ++ (phaseNodes w0 ++ busyNodes ws))
      rw [List.append_assoc]
      exact List.Perm.append_left (phaseNodes w')
        (List.perm_append_comm)
    | succ i =>
      have hperm := ih i w w' h
      show ((phaseNodes w0 ++ busyNodes (ws.set i w')) ++ phaseNodes w).Perm
        (phaseNodes w' ++ (phaseNodes w0 ++ busyNodes ws))
      rw [List.append_assoc]
      exact (List.Perm.append_left (phaseNodes w0) hperm).trans
        (perm_append_middle (phaseNodes w0) (phaseNodes w') (busyNodes ws))

theorem busyNodes_replicate_idle (N : Nat) :
    busyNodes (List.replicate N (WorkerPhase.idle : WorkerPhase α)) = [] := by
  induction N with
  | zero => rfl
  | succ n ih => simp [List.replicate, busyNodes, phaseNodes, ih]

theorem countP_set (p : WorkerPhase α → Bool) (ws : List (WorkerPhase α)) :
    ∀ (i : Nat) (w w' : WorkerPhase α), ws.get? i = some w →
      (ws.set i w').countP p + (if p w then 1 else 0)
        = ws.countP p + (if p w' then 1 else 0) := by
  induction ws with
  | nil => intro i w w' h; simp at h
  | cons w0 ws ih =>
    intro i w w' h
    cases i with
    | zero =>
      injection h with h
      subst h
      simp only [List.set, List.countP_cons]
      omega
    | succ i =>
      have := ih i w w' h
      simp only [List.set, List.countP_cons]
      omega

/-! ## Counting lemmas -/

theorem cntId_nil (k : Nat) : cntId k ([] : List (WorkNode α)) = 0 := rfl

theorem cntTerm_nil : cntTerm ([] : List (WorkNode α)) = 0 := rfl

theorem cntId_append (k : Nat) (l1 l2 : List (WorkNode α)) :
    cntId k (l1 ++ l2) = cntId k l1 + cntId k l2 := by
  unfold cntId
  exact List.countP_append _ _ _

theorem cntTerm_append (l1 l2 : List (WorkNode α)) :
    cntTerm (l1 ++ l2) = cntTerm l1 + cntTerm l2 := by
  unfold cntTerm
  exact List.countP_append _ _ _

theorem cntId_cons (k : Nat) (n : WorkNode α) (l : List (WorkNode α)) :
    cntId k (n :: l) = cntId k l
      + (if n.frame_number = k ∧ n.is_the_last_node = false then 1
         else 0) := by
  unfold cntId
  rw [List.countP_cons]
  congr 1
  by_cases h1 : n.frame_number = k <;> by_cases h2 : n.is_the_last_node
    <;> simp [h1, h2]

theorem cntTerm_cons (n : WorkNode α) (l : List (WorkNode α)) :
    cntTerm (n :: l) = cntTerm l
      + (if n.is_the_last_node = true then 1 else 0) := by
  unfold cntTerm
  rw [List.countP_cons]

theorem cntId_singleton (k : Nat) (n : WorkNode α) :
    cntId k [n] = (if n.frame_number = k ∧ n.is_the_last_node = false
      then 1 else 0) := by
  rw [show ([n] : List (WorkNode α)) = n :: [] from rfl, cntId_cons,
    cntId_nil, Nat.zero_add]

theorem cntTerm_singleton (n : WorkNode α) :
    cntTerm [n] = (if n.is_the_last_node = true then 1 else 0) := by
  rw [show ([n] : List (WorkNode α)) = n :: [] from rfl, cntTerm_cons,
    cntTerm_nil, Nat.zero_add]

theorem cntId_perm (k : Nat) {l1 l2 : List (WorkNode α)}
    (h : l1.Perm l2) : cntId k l1 = cntId k l2 := by
  unfold cntId
  exact h.countP_eq _

theorem cntTerm_perm {l1 l2 : List (WorkNode α)} (h : l1.Perm l2) :
    cntTerm l1 = cntTerm l2 := by
  unfold cntTerm
  exact h.countP_eq _

theorem cntId_eq_zero_of (l : List (WorkNode α)) (k : Nat)
    (h : ∀ n ∈ l, n.is_the_last_node = false → ¬ n.frame_number = k) :
    cntId k l = 0 := by
  unfold cntId
  rw [List.countP_eq_zero]
  intro n hn
  by_cases hl : n.is_the_last_node
  · simp [hl]
  · have := h n hn (by simpa using hl)
    simp [hl, this]

theorem cntTerm_eq_zero_of (l : List (WorkNode α))
    (h : ∀ n ∈ l, n.is_the_last_node = false) : cntTerm l = 0 := by
  unfold cntTerm
  rw [List.countP_eq_zero]
  intro n hn
  simp [h n hn]

theorem cntId_add_to_input (q : WorkQueue α) (n : WorkNode α) (k : Nat)
    (h : q.size = q.nodes.length) :
    cntId k (add_to_input_work_queue q n).nodes = cntId k q.nodes
      + (if n.frame_number = k ∧ n.is_the_last_node = false then 1
         else 0) := by
  rw [add_to_input_nodes q n h, cntId_append, cntId_singleton]

theorem cntTerm_add_to_input (q : WorkQueue α) (n : WorkNode α)
    (h : q.size = q.nodes.length) :
    cntTerm (add_to_input_work_queue q n).nodes = cntTerm q.nodes
      + (if n.is_the_last_node = true then 1 else 0) := by
  rw [add_to_input_nodes q n h, cntTerm_append, cntTerm_singleton]

theorem cntId_add_to_output (q : WorkQueue α) (n : WorkNode α) (k : Nat)
    (h : q.size = q.nodes.length) :
    cntId k (add_to_output_work_queue q n).nodes = cntId k q.nodes
      + (if n.frame_number = k ∧ n.is_the_last_node = false then 1
         else 0) := by
  rw [cntId_perm k (add_to_output_nodes_perm q n h), cntId_cons]

theorem cntTerm_add_to_output (q : WorkQueue α) (n : WorkNode α)
    (h : q.size = q.nodes.length) :
    cntTerm (add_to_output_work_queue q n).nodes = cntTerm q.nodes
      + (if n.is_the_last_node = true then 1 else 0) := by
  rw [cntTerm_perm (add_to_output_nodes_perm q n h), cntTerm_cons]

theorem mem_add_to_input (q : WorkQueue α) (n m : WorkNode α)
    (h : q.size = q.nodes.length)
    (hm : m ∈ (add_to_input_work_queue q n).nodes) :
    m = n ∨ m ∈ q.nodes := by
  rw [add_to_input_nodes q n h] at hm
  rcases List.mem_append.mp hm with hm | hm
  · exact Or.inr hm
  · exact Or.inl (by simpa using hm)

theorem mem_add_to_output (q : WorkQueue α) (n m : WorkNode α)
    (h : q.size = q.nodes.length)
    (hm : m ∈ (add_to_output_work_queue q n).nodes) :
    m = n ∨ m ∈ q.nodes := by
  have := (add_to_output_nodes_perm q n h).mem_iff.mp hm
  rcases List.mem_cons.mp this with hm2 | hm2
  · exact Or.inl hm2
  · exact Or.inr hm2

theorem cntId_busy_set (ws : List (WorkerPhase α)) (i : Nat)
    (w w' : WorkerPhase α) (h : ws.get? i = some w) (k : Nat) :
    cntId k (busyNodes (ws.set i w')) + cntId k (phaseNodes w)
      = cntId k (phaseNodes w') + cntId k (busyNodes ws) := by
  have hperm := busyNodes_set_perm ws i w w' h
  have := cntId_perm k hperm
  rw [cntId_append, cntId_append] at this
  omega

theorem cntTerm_busy_set (ws : List (WorkerPhase α)) (i : Nat)
    (w w' : WorkerPhase α) (h : ws.get? i = some w) :
    cntTerm (busyNodes (ws.set i w')) + cntTerm (phaseNodes w)
      = cntTerm (phaseNodes w') + cntTerm (busyNodes ws) := by
  have hperm := busyNodes_set_perm ws i w w' h
  have := cntTerm_perm hperm
  rw [cntTerm_append, cntTerm_append] at this
  omega

theorem mem_busy_set (ws : List (WorkerPhase α)) (i : Nat)
    (w w' : WorkerPhase α) (h : ws.get? i = some w) (m : WorkNode α)
    (hm : m ∈ busyNodes (ws.set i w')) :
    m ∈ phaseNodes w' ∨ m ∈ busyNodes ws := by
  have hperm := busyNodes_set_perm ws i w w' h
  have : m ∈ busyNodes (ws.set i w') ++ phaseNodes w :=
    List.mem_append.mpr (Or.inl hm)
  have := hperm.mem_iff.mp this
  exact List.mem_append.mp this

/-! ## Node-shape lemmas -/

theorem RawAt_term {frames : List α} {cap : Nat} {n : WorkNode α}
    (h : RawAt frames cap n) (ht : n.is_the_last_node = true) :
    n.frame = none ∧ n.frame_number = frames.length + 1 := by
  unfold RawAt at h
  rw [ht] at h
  simpa using h

theorem RawAt_frame {frames : List α} {cap : Nat} {n : WorkNode α}
    (h : RawAt frames cap n) (ht : n.is_the_last_node = false) :
    1 ≤ n.frame_number ∧ n.frame_number ≤ cap
      ∧ n.frame = frames.get? (n.frame_number - 1) := by
  unfold RawAt at h
  rw [ht] at h
  simpa using h

theorem ProcAt_term {t : α → α} {frames : List α} {cap : Nat}
    {n : WorkNode α} (h : ProcAt t frames cap n)
    (ht : n.is_the_last_node = true) :
    n.frame = none ∧ n.frame_number = frames.length + 1 := by
  unfold ProcAt at h
  rw [ht] at h
  simpa using h

theorem ProcAt_frame {t : α → α} {frames : List α} {cap : Nat}
    {n : WorkNode α} (h : ProcAt t frames cap n)
    (ht : n.is_the_last_node = false) :
    1 ≤ n.frame_number ∧ n.frame_number ≤ cap
      ∧ n.frame = (frames.get? (n.frame_number - 1)).map t := by
  unfold ProcAt at h
  rw [ht] at h
  simpa using h

theorem RawAt_intro_term {frames : List α} {cap : Nat} {n : WorkNode α}
    (ht : n.is_the_last_node = true) (h1 : n.frame = none)
    (h2 : n.frame_number = frames.length + 1) : RawAt frames cap n := by
  unfold RawAt
  rw [ht]
  simp [h1, h2]

theorem RawAt_intro_frame {frames : List α} {cap : Nat} {n : WorkNode α}
    (ht : n.is_the_last_node = false) (h1 : 1 ≤ n.frame_number)
    (h2 : n.frame_number ≤ cap)
    (h3 : n.frame = frames.get? (n.frame_number - 1)) :
    RawAt frames cap n := by
  unfold RawAt
  rw [ht]
  simp [h1, h2, h3]

theorem ProcAt_intro_term {t : α → α} {frames : List α} {cap : Nat}
    {n : WorkNode α} (ht : n.is_the_last_node = true)
    (h1 : n.frame = none) (h2 : n.frame_number = frames.length + 1) :
    ProcAt t frames cap n := by
  unfold ProcAt
  rw [ht]
  simp [h1, h2]

theorem ProcAt_intro_frame {t : α → α} {frames : List α} {cap : Nat}
    {n : WorkNode α} (ht : n.is_the_last_node = false)
    (h1 : 1 ≤ n.frame_number) (h2 : n.frame_number ≤ cap)
    (h3 : n.frame = (frames.get? (n.frame_number - 1)).map t) :
    ProcAt t frames cap n := by
  unfold ProcAt
  rw [ht]
  simp [h1, h2, h3]

theorem RawAt_mono {frames : List α} {c1 c2 : Nat} {n : WorkNode α}
    (h : RawAt frames c1 n) (hc : c1 ≤ c2) : RawAt frames c2 n := by
  cases ht : n.is_the_last_node with
  | true =>
    obtain ⟨h1, h2⟩ := RawAt_term h ht
    exact RawAt_intro_term ht h1 h2
  | false =>
    obtain ⟨h1, h2, h3⟩ := RawAt_frame h ht
    exact RawAt_intro_frame ht h1 (le_trans h2 hc) h3

theorem ProcAt_mono {t : α → α} {frames : List α} {c1 c2 : Nat}
    {n : WorkNode α} (h : ProcAt t frames c1 n) (hc : c1 ≤ c2) :
    ProcAt t frames c2 n := by
  cases ht : n.is_the_last_node with
  | true =>
    obtain ⟨h1, h2⟩ := ProcAt_term h ht
    exact ProcAt_intro_term ht h1 h2
  | false =>
    obtain ⟨h1, h2, h3⟩ := ProcAt_frame h ht
    exact ProcAt_intro_frame ht h1 (le_trans h2 hc) h3

theorem ProcAt_process {t : α → α} {frames : List α} {cap : Nat}
    {n : WorkNode α} (h : RawAt frames cap n)
    (ht : n.is_the_last_node = false) :
    ProcAt t frames cap (process_node t n) := by
  obtain ⟨h1, h2, h3⟩ := RawAt_frame h ht
  exact ProcAt_intro_frame (n := process_node t n) ht h1 h2
    (by unfold process_node; simp only; rw [h3])

theorem ProcAt_of_RawAt_term {t : α → α} {frames : List α} {cap : Nat}
    {n : WorkNode α} (h : RawAt frames cap n)
    (ht : n.is_the_last_node = true) : ProcAt t frames cap n := by
  obtain ⟨h1, h2⟩ := RawAt_term h ht
  exact ProcAt_intro_term ht h1 h2

/-! ## List access lemmas -/

theorem get?_of_drop_cons {l : List α} :
    ∀ {k : Nat} {p : α} {rest : List α}, l.drop k = p :: rest →
      l.get? k = some p := by
  induction l with
  | nil => intro k p rest h; simp at h
  | cons a l ih =>
    intro k p rest h
    cases k with
    | zero =>
      simp at h
      simp [h.1]
    | succ k =>
      exact ih h

theorem drop_cons_succ {l : List α} :
    ∀ {k : Nat} {p : α} {rest : List α}, l.drop k = p :: rest →
      l.drop (k + 1) = rest := by
  induction l with
  | nil => intro k p rest h; simp at h
  | cons a l ih =>
    intro k p rest h
    cases k with
    | zero =>
      simp at h
      simp [h.2]
    | succ k =>
      exact ih h

theorem get?_set_self (ws : List (WorkerPhase α)) :
    ∀ (i : Nat) (w w' : WorkerPhase α), ws.get? i = some w →
      (ws.set i w').get? i = some w' := by
  induction ws with
  | nil => intro i w w' h; simp at h
  | cons w0 ws ih =>
    intro i w w' h
    cases i with
    | zero => rfl
    | succ i => exact ih i w w' h

theorem get?_set_other (ws : List (WorkerPhase α)) :
    ∀ (i j : Nat) (w' : WorkerPhase α), i ≠ j →
      (ws.set i w').get? j = ws.get? j := by
  induction ws with
  | nil => intro i j w' hij; cases i <;> rfl
  | cons w0 ws ih =>
    intro i j w' hij
    cases i with
    | zero =>
      cases j with
      | zero => exact absurd rfl hij
      | succ j => rfl
    | succ i =>
      cases j with
      | zero => rfl
      | succ j => exact ih i j w' (by omega)

theorem busy_mem_of_get? (ws : List (WorkerPhase α)) :
    ∀ (i : Nat) (n : WorkNode α), ws.get? i = some (.busy n) →
      n ∈ busyNodes ws := by
  induction ws with
  | nil => intro i n h; simp at h
  | cons w0 ws ih =>
    intro i n h
    cases i with
    | zero =>
      injection h with h
      subst h
      simp [busyNodes, phaseNodes]
    | succ i =>
      have := ih i n h
      unfold busyNodes
      exact List.mem_append.mpr (Or.inr this)

theorem get?_replicate_idle (N : Nat) :
    ∀ (i : Nat) (w : WorkerPhase α),
      (List.replicate N (WorkerPhase.idle : WorkerPhase α)).get? i
        = some w → w = .idle := by
  induction N with
  | zero => intro i w h; simp at h
  | succ n ih =>
    intro i w h
    cases i with
    | zero =>
      injection h with h
      exact h.symm
    | succ i => exact ih i w h

theorem remove_input_spec (q q2 : WorkQueue α) (n : WorkNode α)
    (h : remove_from_input_work_queue q = (some n, q2)) :
    q.nodes = n :: q2.nodes ∧ q2.size = q.size - 1 := by
  unfold remove_from_input_work_queue at h
  cases hq : q.nodes with
  | nil => rw [hq] at h; simp at h
  | cons m rest =>
    rw [hq] at h
    injection h with h1 h2
    injection h1 with h1
    subst h1
    subst h2
    exact ⟨rfl, rfl⟩

theorem remove_output_spec (q q2 : WorkQueue α) (n : WorkNode α)
    (h : remove_from_output_work_queue q = (some n, q2)) :
    q.nodes = n :: q2.nodes ∧ q2.size = q.size - 1 := by
  unfold remove_from_output_work_queue at h
  cases hq : q.nodes with
  | nil => rw [hq] at h; simp at h
  | cons m rest =>
    rw [hq] at h
    injection h with h1 h2
    injection h1 with h1
    subst h1
    subst h2
    exact ⟨rfl, rfl⟩

theorem get_head_id_of_cons (q : WorkQueue α) (n : WorkNode α)
    (rest : List (WorkNode α)) (h : q.nodes = n :: rest) :
    get_head_id_from_output_work_queue q = some n.frame_number := by
  unfold get_head_id_from_output_work_queue
  rw [h]

/-! ## Derived facts of the staged invariant -/

theorem Inv1_cap_le {t : α → α} {frames : List α} {N : Nat} {s : S1 α}
    (inv : Inv1 t frames N s) : cap1 frames s ≤ frames.length := by
  unfold cap1
  cases hi : s.ingest with
  | reading => exact (inv.src_reading hi).1
  | sending k => exact le_refl _

theorem cap1_reading {frames : List α} {s : S1 α}
    (h : s.ingest = .reading) : cap1 frames s = s.nframes := by
  unfold cap1
  rw [h]

theorem cap1_sending {frames : List α} {s : S1 α} {k : Nat}
    (h : s.ingest = .sending k) : cap1 frames s = frames.length := by
  unfold cap1
  rw [h]

theorem Inv1.cnt_zero_out {t : α → α} {frames : List α} {N : Nat}
    {s : S1 α} (inv : Inv1 t frames N s) (k : Nat)
    (hk : k = 0 ∨ cap1 frames s < k) :
    cntId k s.inQ.nodes = 0 ∧ cntId k (busyNodes s.workers) = 0
      ∧ cntId k s.outQ.nodes = 0
      ∧ emitCnt frames.length s.current_frame k = 0 := by
  refine ⟨?_, ?_, ?_, ?_⟩
  · refine cntId_eq_zero_of _ _ (fun n hn hf => ?_)
    have := RawAt_frame (inv.inq_raw n hn) hf
    omega
  · refine cntId_eq_zero_of _ _ (fun n hn hf => ?_)
    have := RawAt_frame (inv.busy_raw n hn) hf
    omega
  · refine cntId_eq_zero_of _ _ (fun n hn hf => ?_)
    have := ProcAt_frame (inv.outq_proc n hn) hf
    omega
  · have hcl := Inv1_cap_le inv
    unfold emitCnt
    cases he : s.emitDone with
    | false =>
      have := inv.cursor_le he
      rw [if_neg]
      omega
    | true =>
      have := (inv.cursor_done he).2
      rw [if_neg]
      omega

theorem Inv1_init (t : α → α) (frames : List α) (N : Nat) :
    Inv1 t frames N (S1.init α frames N) := by
  have hw : (S1.init α frames N).workers
      = List.replicate N WorkerPhase.idle := rfl
  constructor
  case inq_size => rfl
  case outq_size => rfl
  case workers_len => simp [S1.init]
  case src_reading =>
    intro _
    exact ⟨Nat.zero_le _, by simp [S1.init]⟩
  case src_sending =>
    intro k h
    simp [S1.init] at h
  case inq_raw =>
    intro n hn
    simp [S1.init, emptyWorkQueue] at hn
  case busy_raw =>
    intro n hn
    rw [hw, busyNodes_replicate_idle] at hn
    simp at hn
  case outq_proc =>
    intro n hn
    simp [S1.init, emptyWorkQueue] at hn
  case outq_sorted => simp [S1.init, emptyWorkQueue, OutSorted]
  case cursor_le =>
    intro _
    exact Nat.zero_le _
  case cursor_done =>
    intro h
    simp [S1.init] at h
  case emitted_eq => simp [S1.init]
  case ledger =>
    intro k hk1 hk2
    have : cap1 frames (S1.init α frames N) = 0 := rfl
    omega
  case pop_eq =>
    intro k
    rw [hw, busyNodes_replicate_idle]
    have h1 : emitCnt frames.length (S1.init α frames N).current_frame k
        = 0 := by
      unfold emitCnt
      rw [if_neg]
      have : (S1.init α frames N).current_frame = 0 := rfl
      omega
    rw [h1]
    rfl
  case proc_eq =>
    intro k
    have h1 : emitCnt frames.length (S1.init α frames N).current_frame k
        = 0 := by
      unfold emitCnt
      rw [if_neg]
      have : (S1.init α frames N).current_frame = 0 := rfl
      omega
    rw [h1]
    rfl
  case terms_reading => intro _; rfl
  case terms_sending =>
    intro k h
    simp [S1.init] at h
  case term_ledger =>
    rw [hw, busyNodes_replicate_idle]
    rfl
  case term_pops_idle => intro i _; rfl
  case term_pops_busy =>
    intro i n h
    rw [hw] at h
    exact WorkerPhase.noConfusion (get?_replicate_idle N i _ h)
  case term_pops_done =>
    intro i h
    rw [hw] at h
    exact WorkerPhase.noConfusion (get?_replicate_idle N i _ h)
  case term_pops_out => intro i _; rfl
  case done_count =>
    rw [hw]
    have : (List.replicate N (WorkerPhase.idle : WorkerPhase α)).countP
        isDone = 0 := by
      rw [List.countP_eq_zero]
      intro w hmem
      rw [List.eq_of_mem_replicate hmem]
      simp [isDone]
    rw [this]
    rfl

theorem Inv1_step_ingest_frame {t : α → α} {frames : List α} {N : Nat}
    {s : S1 α} (inv : Inv1 t frames N s) (p : α) (rest : List α)
    (hr : s.ingest = .reading) (hp : s.pending = p :: rest) :
    Inv1 t frames N { s with
      pending := rest
      nframes := s.nframes + 1
      inQ := add_to_input_work_queue s.inQ
        { frame := some p, frame_number := s.nframes + 1,
          is_the_last_node := false } } := by
  obtain ⟨hle, hpend⟩ := inv.src_reading hr
  have hdrop : frames.drop s.nframes = p :: rest := by
    rw [← hpend]; exact hp
  have hget : frames.get? s.nframes = some p := get?_of_drop_cons hdrop
  have hdrop2 : frames.drop (s.nframes + 1) = rest := drop_cons_succ hdrop
  have hlt : s.nframes < frames.length := by
    have hh := congrArg List.length hdrop
    rw [List.length_drop] at hh
    simp at hh
    omega
  have hcap : cap1 frames s = s.nframes := cap1_reading hr
  constructor
  case inq_size =>
    exact add_to_input_consistent _ _ inv.inq_size
  case outq_size => exact inv.outq_size
  case workers_len => exact inv.workers_len
  case src_reading =>
    intro _
    constructor
    · show s.nframes + 1 ≤ frames.length
      omega
    · exact hdrop2.symm
  case src_sending =>
    intro k h
    have h2 : s.ingest = .sending k := h
    rw [hr] at h2
    exact IngestPhase.noConfusion h2
  case inq_raw =>
    intro n hn
    have hcap2 : cap1 frames ({ s with
        pending := rest
        nframes := s.nframes + 1
        inQ := add_to_input_work_queue s.inQ
          { frame := some p, frame_number := s.nframes + 1,
            is_the_last_node := false } } : S1 α) = s.nframes + 1 :=
      cap1_reading hr
    rw [hcap2]
    rcases mem_add_to_input _ _ _ inv.inq_size hn with hn | hn
    · subst hn
      refine RawAt_intro_frame rfl ?_ ?_ ?_
      · show (1 : Nat) ≤ s.nframes + 1
        omega
      · show s.nframes + 1 ≤ s.nframes + 1
        omega
      · show some p = frames.get? (s.nframes + 1 - 1)
        simpa using hget.symm
    · have h0 := inv.inq_raw n hn
      refine RawAt_mono h0 ?_
      rw [hcap]
      omega
  case busy_raw =>
    intro n hn
    have hcap2 : cap1 frames ({ s with
        pending := rest
        nframes := s.nframes + 1
        inQ := add_to_input_work_queue s.inQ
          { frame := some p, frame_number := s.nframes + 1,
            is_the_last_node := false } } : S1 α) = s.nframes + 1 :=
      cap1_reading hr
    rw [hcap2]
    have h0 := inv.busy_raw n hn
    refine RawAt_mono h0 ?_
    rw [hcap]
    omega
  case outq_proc =>
    intro n hn
    have hcap2 : cap1 frames ({ s with
        pending := rest
        nframes := s.nframes + 1
        inQ := add_to_input_work_queue s.inQ
          { frame := some p, frame_number := s.nframes + 1,
            is_the_last_node := false } } : S1 α) = s.nframes + 1 :=
      cap1_reading hr
    rw [hcap2]
    have h0 := inv.outq_proc n hn
    refine ProcAt_mono h0 ?_
    rw [hcap]
    omega
  case outq_sorted => exact inv.outq_sorted
  case cursor_le =>
    intro he
    have := inv.cursor_le he
    have hcap2 : cap1 frames ({ s with
        pending := rest
        nframes := s.nframes + 1
        inQ := add_to_input_work_queue s.inQ
          { frame := some p, frame_number := s.nframes + 1,
            is_the_last_node := false } } : S1 α) = s.nframes + 1 :=
      cap1_reading hr
    rw [hcap2]
    show s.current_frame ≤ s.nframes + 1
    rw [hcap] at this
    omega
  case cursor_done =>
    intro he
    have := inv.cursor_done he
    have hcap2 : cap1 frames ({ s with
        pending := rest
        nframes := s.nframes + 1
        inQ := add_to_input_work_queue s.inQ
          { frame := some p, frame_number := s.nframes + 1,
            is_the_last_node := false } } : S1 α) = s.nframes + 1 :=
      cap1_reading hr
    rw [hcap2]
    show s.current_frame = frames.length + 1 ∧ frames.length ≤ s.nframes + 1
    rw [hcap] at this
    exact ⟨this.1, by omega⟩
  case emitted_eq => exact inv.emitted_eq
  case ledger =>
    intro k hk1 hk2
    have hcap2 : cap1 frames ({ s with
        pending := rest
        nframes := s.nframes + 1
        inQ := add_to_input_work_queue s.inQ
          { frame := some p, frame_number := s.nframes + 1,
            is_the_last_node := false } } : S1 α) = s.nframes + 1 :=
      cap1_reading hr
    rw [hcap2] at hk2
    show cntId k (add_to_input_work_queue s.inQ
        { frame := some p, frame_number := s.nframes + 1,
          is_the_last_node := false }).nodes
      + cntId k (busyNodes s.workers) + cntId k s.outQ.nodes
      + emitCnt frames.length s.current_frame k = 1
    rw [cntId_add_to_input _ _ _ inv.inq_size]
    by_cases hk : k = s.nframes + 1
    · rw [if_pos (show _ ∧ _ from ⟨hk.symm, rfl⟩)]
      obtain ⟨z1, z2, z3, z4⟩ := inv.cnt_zero_out k (Or.inr (by omega))
      omega
    · rw [if_neg (by intro hc; exact hk hc.1.symm)]
      have := inv.ledger k hk1 (by omega)
      omega
  case pop_eq =>
    intro k
    exact inv.pop_eq k
  case proc_eq =>
    intro k
    exact inv.proc_eq k
  case terms_reading =>
    intro _
    exact inv.terms_reading hr
  case terms_sending =>
    intro k h
    have h2 : s.ingest = .sending k := h
    rw [hr] at h2
    exact IngestPhase.noConfusion h2
  case term_ledger =>
    show cntTerm (add_to_input_work_queue s.inQ
        { frame := some p, frame_number := s.nframes + 1,
          is_the_last_node := false }).nodes
      + cntTerm (busyNodes s.workers) + cntTerm s.outQ.nodes
      + (if s.emitDone then 1 else 0) = s.termsCreated
    rw [cntTerm_add_to_input _ _ inv.inq_size]
    have := inv.term_ledger
    simp only [if_neg (by simp : ¬ (false = true))]
    omega
  case term_pops_idle => exact inv.term_pops_idle
  case term_pops_busy => exact inv.term_pops_busy
  case term_pops_done => exact inv.term_pops_done
  case term_pops_out => exact inv.term_pops_out
  case done_count => exact inv.done_count

theorem Inv1_step_ingest_empty {t : α → α} {frames : List α} {N : Nat}
    {s : S1 α} (inv : Inv1 t frames N s) (N0 : Nat)
    (hr : s.ingest = .reading) (hp : s.pending = [])
    (hw : s.workers.length = N0) :
    Inv1 t frames N { s with
      nframes := s.nframes + 1
      ingest := .sending N0 } := by
  obtain ⟨hle, hpend⟩ := inv.src_reading hr
  have hM : s.nframes = frames.length := by
    have h2 : frames.drop s.nframes = [] := by rw [← hpend]; exact hp
    have h3 := congrArg List.length h2
    rw [List.length_drop] at h3
    simp at h3
    omega
  have hN0 : N0 = N := by
    have := inv.workers_len
    omega
  have hcap : cap1 frames s = s.nframes := cap1_reading hr
  have hcap2 : cap1 frames ({ s with
      nframes := s.nframes + 1
      ingest := .sending N0 } : S1 α) = frames.length :=
    cap1_sending rfl
  constructor
  case inq_size => exact inv.inq_size
  case outq_size => exact inv.outq_size
  case workers_len => exact inv.workers_len
  case src_reading =>
    intro h
    exact IngestPhase.noConfusion (show IngestPhase.sending N0 = .reading from h)
  case src_sending =>
    intro k h
    have h2 : IngestPhase.sending N0 = .sending k := h
    injection h2 with hk
    refine ⟨by omega, ?_, hp⟩
    show s.nframes + 1 = frames.length + 1
    omega
  case inq_raw =>
    intro n hn
    rw [hcap2]
    have h0 := inv.inq_raw n hn
    refine RawAt_mono h0 ?_
    rw [hcap]
    omega
  case busy_raw =>
    intro n hn
    rw [hcap2]
    have h0 := inv.busy_raw n hn
    refine RawAt_mono h0 ?_
    rw [hcap]
    omega
  case outq_proc =>
    intro n hn
    rw [hcap2]
    have h0 := inv.outq_proc n hn
    refine ProcAt_mono h0 ?_
    rw [hcap]
    omega
  case outq_sorted => exact inv.outq_sorted
  case cursor_le =>
    intro he
    have h0 := inv.cursor_le he
    rw [hcap2]
    show s.current_frame ≤ frames.length
    rw [hcap] at h0
    omega
  case cursor_done =>
    intro he
    have h0 := inv.cursor_done he
    rw [hcap2]
    exact ⟨h0.1, le_refl _⟩
  case emitted_eq => exact inv.emitted_eq
  case ledger =>
    intro k hk1 hk2
    rw [hcap2] at hk2
    exact inv.ledger k hk1 (by rw [hcap]; omega)
  case pop_eq => exact inv.pop_eq
  case proc_eq => exact inv.proc_eq
  case terms_reading =>
    intro h
    exact IngestPhase.noConfusion (show IngestPhase.sending N0 = .reading from h)
  case terms_sending =>
    intro k h
    have h2 : IngestPhase.sending N0 = .sending k := h
    injection h2 with hk
    show s.termsCreated = N - k
    rw [inv.terms_reading hr]
    omega
  case term_ledger => exact inv.term_ledger
  case term_pops_idle => exact inv.term_pops_idle
  case term_pops_busy => exact inv.term_pops_busy
  case term_pops_done => exact inv.term_pops_done
  case term_pops_out => exact inv.term_pops_out
  case done_count => exact inv.done_count

theorem Inv1_step_ingest_sentinel {t : α → α} {frames : List α} {N : Nat}
    {s : S1 α} (inv : Inv1 t frames N s) (k : Nat)
    (hs : s.ingest = .sending (k + 1)) :
    Inv1 t frames N { s with
      inQ := add_to_input_work_queue s.inQ
        { frame := none, frame_number := s.nframes,
          is_the_last_node := true }
      ingest := .sending k
      termsCreated := s.termsCreated + 1 } := by
  obtain ⟨hkN, hnf, hpend⟩ := inv.src_sending (k + 1) hs
  have hcap : cap1 frames s = frames.length := cap1_sending hs
  have hcap2 : cap1 frames ({ s with
      inQ := add_to_input_work_queue s.inQ
        { frame := none, frame_number := s.nframes,
          is_the_last_node := true }
      ingest := .sending k
      termsCreated := s.termsCreated + 1 } : S1 α) = frames.length :=
    cap1_sending rfl
  constructor
  case inq_size => exact add_to_input_consistent _ _ inv.inq_size
  case outq_size => exact inv.outq_size
  case workers_len => exact inv.workers_len
  case src_reading =>
    intro h
    exact IngestPhase.noConfusion (show IngestPhase.sending k = .reading from h)
  case src_sending =>
    intro k2 h
    have h2 : IngestPhase.sending k = .sending k2 := h
    injection h2 with hk
    exact ⟨by omega, hnf, hpend⟩
  case inq_raw =>
    intro n hn
    rw [hcap2]
    rcases mem_add_to_input _ _ _ inv.inq_size hn with hn | hn
    · subst hn
      refine RawAt_intro_term rfl rfl ?_
      show s.nframes = frames.length + 1
      omega
    · have h0 := inv.inq_raw n hn
      refine RawAt_mono h0 ?_
      rw [hcap]
  case busy_raw =>
    intro n hn
    rw [hcap2]
    have h0 := inv.busy_raw n hn
    refine RawAt_mono h0 ?_
    rw [hcap]
  case outq_proc =>
    intro n hn
    rw [hcap2]
    have h0 := inv.outq_proc n hn
    refine ProcAt_mono h0 ?_
    rw [hcap]
  case outq_sorted => exact inv.outq_sorted
  case cursor_le =>
    intro he
    have h0 := inv.cursor_le he
    rw [hcap2]
    show s.current_frame ≤ frames.length
    rw [hcap] at h0
    omega
  case cursor_done =>
    intro he
    have h0 := inv.cursor_done he
    rw [hcap2]
    exact ⟨h0.1, le_refl _⟩
  case emitted_eq => exact inv.emitted_eq
  case ledger =>
    intro k2 hk1 hk2
    rw [hcap2] at hk2
    show cntId k2 (add_to_input_work_queue s.inQ
        { frame := none, frame_number := s.nframes,
          is_the_last_node := true }).nodes
      + cntId k2 (busyNodes s.workers) + cntId k2 s.outQ.nodes
      + emitCnt frames.length s.current_frame k2 = 1
    rw [cntId_add_to_input _ _ _ inv.inq_size]
    rw [if_neg (fun hc => Bool.noConfusion hc.2)]
    have := inv.ledger k2 hk1 (by rw [hcap]; omega)
    omega
  case pop_eq => exact inv.pop_eq
  case proc_eq => exact inv.proc_eq
  case terms_reading =>
    intro h
    exact IngestPhase.noConfusion (show IngestPhase.sending k = .reading from h)
  case terms_sending =>
    intro k2 h
    have h2 : IngestPhase.sending k = .sending k2 := h
    injection h2 with hk
    show s.termsCreated + 1 = N - k2
    have := inv.terms_sending (k + 1) hs
    omega
  case term_ledger =>
    show cntTerm (add_to_input_work_queue s.inQ
        { frame := none, frame_number := s.nframes,
          is_the_last_node := true }).nodes
      + cntTerm (busyNodes s.workers) + cntTerm s.outQ.nodes
      + (if s.emitDone then 1 else 0) = s.termsCreated + 1
    rw [cntTerm_add_to_input _ _ inv.inq_size]
    rw [if_pos rfl]
    have := inv.term_ledger
    omega
  case term_pops_idle => exact inv.term_pops_idle
  case term_pops_busy => exact inv.term_pops_busy
  case term_pops_done => exact inv.term_pops_done
  case term_pops_out => exact inv.term_pops_out
  case done_count => exact inv.done_count

theorem get?_some_lt (ws : List (WorkerPhase α)) :
    ∀ (i : Nat) (w : WorkerPhase α), ws.get? i = some w →
      i < ws.length := by
  induction ws with
  | nil => intro i w h; simp at h
  | cons w0 ws ih =>
    intro i w h
    cases i with
    | zero => simp
    | succ i =>
      have := ih i w h
      simp
      omega

theorem Inv1_step_worker_pop {t : α → α} {frames : List α} {N : Nat}
    {s : S1 α} (inv : Inv1 t frames N s) (i : Nat) (n : WorkNode α)
    (q : WorkQueue α)
    (hw : s.workers.get? i = some .idle)
    (hq : remove_from_input_work_queue s.inQ = (some n, q)) :
    Inv1 t frames N { s with
      inQ := q
      workers := s.workers.set i (.busy n)
      popCount := fun j =>
        if n.frame_number = j ∧ n.is_the_last_node = false
        then s.popCount j + 1 else s.popCount j
      termPops := fun j =>
        if j = i ∧ n.is_the_last_node = true
        then s.termPops j + 1 else s.termPops j } := by
  obtain ⟨hnodes, hsize⟩ := remove_input_spec _ _ _ hq
  have hlen : s.inQ.nodes.length = q.nodes.length + 1 := by
    rw [hnodes]
    rfl
  have hcap2 : cap1 frames ({ s with
      inQ := q
      workers := s.workers.set i (.busy n)
      popCount := fun j =>
        if n.frame_number = j ∧ n.is_the_last_node = false
        then s.popCount j + 1 else s.popCount j
      termPops := fun j =>
        if j = i ∧ n.is_the_last_node = true
        then s.termPops j + 1 else s.termPops j } : S1 α)
      = cap1 frames s := rfl
  have hmemn : n ∈ s.inQ.nodes := by
    rw [hnodes]
    exact List.mem_cons_self n q.nodes
  constructor
  case inq_size =>
    show q.size = q.nodes.length
    have := inv.inq_size
    omega
  case outq_size => exact inv.outq_size
  case workers_len =>
    show (s.workers.set i (.busy n)).length = N
    rw [List.length_set]
    exact inv.workers_len
  case src_reading => exact inv.src_reading
  case src_sending => exact inv.src_sending
  case inq_raw =>
    intro m hm
    rw [hcap2]
    refine inv.inq_raw m ?_
    rw [hnodes]
    exact List.mem_cons_of_mem n hm
  case busy_raw =>
    intro m hm
    rw [hcap2]
    rcases mem_busy_set s.workers i _ _ hw m hm with hm | hm
    · have hmn : m = n := by simpa [phaseNodes] using hm
      subst hmn
      exact inv.inq_raw m hmemn
    · exact inv.busy_raw m hm
  case outq_proc =>
    intro m hm
    rw [hcap2]
    exact inv.outq_proc m hm
  case outq_sorted => exact inv.outq_sorted
  case cursor_le =>
    intro he
    rw [hcap2]
    exact inv.cursor_le he
  case cursor_done =>
    intro he
    rw [hcap2]
    exact inv.cursor_done he
  case emitted_eq => exact inv.emitted_eq
  case ledger =>
    intro k hk1 hk2
    rw [hcap2] at hk2
    show cntId k q.nodes
      + cntId k (busyNodes (s.workers.set i (.busy n)))
      + cntId k s.outQ.nodes
      + emitCnt frames.length s.current_frame k = 1
    have e1 : cntId k s.inQ.nodes = cntId k q.nodes
        + (if n.frame_number = k ∧ n.is_the_last_node = false then 1
           else 0) := by
      rw [hnodes, cntId_cons]
    have b1 := cntId_busy_set s.workers i _ (.busy n) hw k
    have b1a : cntId k (phaseNodes (WorkerPhase.idle : WorkerPhase α))
        = 0 := rfl
    have b1b : cntId k (phaseNodes (WorkerPhase.busy n))
        = (if n.frame_number = k ∧ n.is_the_last_node = false then 1
           else 0) := by
      rw [show phaseNodes (WorkerPhase.busy n) = [n] from rfl,
        cntId_singleton]
    have e3 := inv.ledger k hk1 hk2
    omega
  case pop_eq =>
    intro k
    show (if n.frame_number = k ∧ n.is_the_last_node = false
        then s.popCount k + 1 else s.popCount k)
      = cntId k (busyNodes (s.workers.set i (.busy n)))
        + cntId k s.outQ.nodes
        + emitCnt frames.length s.current_frame k
    have b1 := cntId_busy_set s.workers i _ (.busy n) hw k
    have b1a : cntId k (phaseNodes (WorkerPhase.idle : WorkerPhase α))
        = 0 := rfl
    have b1b : cntId k (phaseNodes (WorkerPhase.busy n))
        = (if n.frame_number = k ∧ n.is_the_last_node = false then 1
           else 0) := by
      rw [show phaseNodes (WorkerPhase.busy n) = [n] from rfl,
        cntId_singleton]
    have e3 := inv.pop_eq k
    by_cases hC : n.frame_number = k ∧ n.is_the_last_node = false
    · rw [if_pos hC] at b1b ⊢
      omega
    · rw [if_neg hC] at b1b ⊢
      omega
  case proc_eq =>
    intro k
    show s.procCount k = cntId k s.outQ.nodes
      + emitCnt frames.length s.current_frame k
    exact inv.proc_eq k
  case terms_reading => exact inv.terms_reading
  case terms_sending => exact inv.terms_sending
  case term_ledger =>
    show cntTerm q.nodes
      + cntTerm (busyNodes (s.workers.set i (.busy n)))
      + cntTerm s.outQ.nodes
      + (if s.emitDone then 1 else 0) = s.termsCreated
    have e1 : cntTerm s.inQ.nodes = cntTerm q.nodes
        + (if n.is_the_last_node = true then 1 else 0) := by
      rw [hnodes, cntTerm_cons]
    have b1 := cntTerm_busy_set s.workers i _ (.busy n) hw
    have b1a : cntTerm (phaseNodes (WorkerPhase.idle : WorkerPhase α))
        = 0 := rfl
    have b1b : cntTerm (phaseNodes (WorkerPhase.busy n))
        = (if n.is_the_last_node = true then 1 else 0) := by
      rw [show phaseNodes (WorkerPhase.busy n) = [n] from rfl,
        cntTerm_singleton]
    have e3 := inv.term_ledger
    omega
  case term_pops_idle =>
    intro j hj
    by_cases hji : j = i
    · subst hji
      rw [get?_set_self s.workers j _ (.busy n) hw] at hj
      injection hj with hj2
      exact WorkerPhase.noConfusion hj2
    · rw [get?_set_other s.workers i j _ (fun h => hji h.symm)] at hj
      show (if j = i ∧ n.is_the_last_node = true
          then s.termPops j + 1 else s.termPops j) = 0
      rw [if_neg (fun hc => hji hc.1)]
      exact inv.term_pops_idle j hj
  case term_pops_busy =>
    intro j m hj
    by_cases hji : j = i
    · subst hji
      rw [get?_set_self s.workers j _ (.busy n) hw] at hj
      injection hj with hj2
      injection hj2 with hj3
      subst hj3
      show (if j = j ∧ n.is_the_last_node = true
          then s.termPops j + 1 else s.termPops j)
        = (if n.is_the_last_node then 1 else 0)
      have h0 : s.termPops j = 0 := inv.term_pops_idle j hw
      cases n.is_the_last_node with
      | true =>
        rw [if_pos (show j = j ∧ true = true from ⟨rfl, rfl⟩),
          if_pos rfl, h0]
      | false =>
        rw [if_neg (fun hc => Bool.noConfusion hc.2)]
        rw [if_neg (fun hc => Bool.noConfusion hc)]
        exact h0
    · rw [get?_set_other s.workers i j _ (fun h => hji h.symm)] at hj
      show (if j = i ∧ n.is_the_last_node = true
          then s.termPops j + 1 else s.termPops j)
        = (if m.is_the_last_node then 1 else 0)
      rw [if_neg (fun hc => hji hc.1)]
      exact inv.term_pops_busy j m hj
  case term_pops_done =>
    intro j hj
    by_cases hji : j = i
    · subst hji
      rw [get?_set_self s.workers j _ (.busy n) hw] at hj
      injection hj with hj2
      exact WorkerPhase.noConfusion hj2
    · rw [get?_set_other s.workers i j _ (fun h => hji h.symm)] at hj
      show (if j = i ∧ n.is_the_last_node = true
          then s.termPops j + 1 else s.termPops j) = 1
      rw [if_neg (fun hc => hji hc.1)]
      exact inv.term_pops_done j hj
  case term_pops_out =>
    intro j hj
    have hj0 : (s.workers.set i (.busy n)).length ≤ j := hj
    rw [List.length_set] at hj0
    have hj2 : s.workers.length ≤ j := hj0
    have hilt : i < s.workers.length := get?_some_lt s.workers i _ hw
    show (if j = i ∧ n.is_the_last_node = true
        then s.termPops j + 1 else s.termPops j) = 0
    rw [if_neg (fun hc => by omega)]
    exact inv.term_pops_out j hj2
  case done_count =>
    show (s.workers.set i (.busy n)).countP isDone
      = cntTerm s.outQ.nodes + (if s.emitDone then 1 else 0)
    have hcnt := countP_set isDone s.workers i _ (.busy n) hw
    simp only [isDone] at hcnt
    have e3 := inv.done_count
    omega

theorem Inv1_step_worker_push_frame {t : α → α} {frames : List α}
    {N : Nat} {s : S1 α} (inv : Inv1 t frames N s) (i : Nat)
    (n : WorkNode α)
    (hw : s.workers.get? i = some (.busy n))
    (hn : n.is_the_last_node = false) :
    Inv1 t frames N { s with
      outQ := add_to_output_work_queue s.outQ (process_node t n)
      workers := s.workers.set i .idle
      procCount := fun j =>
        if n.frame_number = j then s.procCount j + 1
        else s.procCount j } := by
  have hmemn : n ∈ busyNodes s.workers := busy_mem_of_get? s.workers i n hw
  have hraw := inv.busy_raw n hmemn
  have hcap2 : cap1 frames ({ s with
      outQ := add_to_output_work_queue s.outQ (process_node t n)
      workers := s.workers.set i .idle
      procCount := fun j =>
        if n.frame_number = j then s.procCount j + 1
        else s.procCount j } : S1 α) = cap1 frames s := rfl
  have o1 : ∀ k, cntId k (add_to_output_work_queue s.outQ
        (process_node t n)).nodes
      = cntId k s.outQ.nodes
        + (if n.frame_number = k ∧ n.is_the_last_node = false then 1
           else 0) :=
    fun k => cntId_add_to_output s.outQ (process_node t n) k inv.outq_size
  have ot1 : cntTerm (add_to_output_work_queue s.outQ
        (process_node t n)).nodes
      = cntTerm s.outQ.nodes
        + (if n.is_the_last_node = true then 1 else 0) :=
    cntTerm_add_to_output s.outQ (process_node t n) inv.outq_size
  have hterm0 : (if n.is_the_last_node = true then 1 else 0) = 0 :=
    if_neg (fun hc => by rw [hn] at hc; exact Bool.noConfusion hc)
  constructor
  case inq_size => exact inv.inq_size
  case outq_size => exact add_to_output_consistent _ _ inv.outq_size
  case workers_len =>
    show (s.workers.set i .idle).length = N
    rw [List.length_set]
    exact inv.workers_len
  case src_reading => exact inv.src_reading
  case src_sending => exact inv.src_sending
  case inq_raw =>
    intro m hm
    rw [hcap2]
    exact inv.inq_raw m hm
  case busy_raw =>
    intro m hm
    rw [hcap2]
    rcases mem_busy_set s.workers i _ _ hw m hm with hm | hm
    · simp [phaseNodes] at hm
    · exact inv.busy_raw m hm
  case outq_proc =>
    intro m hm
    rw [hcap2]
    rcases mem_add_to_output _ _ _ inv.outq_size hm with hm | hm
    · subst hm
      exact ProcAt_process hraw hn
    · exact inv.outq_proc m hm
  case outq_sorted => exact add_to_output_sorted _ _ inv.outq_sorted
  case cursor_le =>
    intro he
    rw [hcap2]
    exact inv.cursor_le he
  case cursor_done =>
    intro he
    rw [hcap2]
    exact inv.cursor_done he
  case emitted_eq => exact inv.emitted_eq
  case ledger =>
    intro k hk1 hk2
    rw [hcap2] at hk2
    show cntId k s.inQ.nodes
      + cntId k (busyNodes (s.workers.set i .idle))
      + cntId k (add_to_output_work_queue s.outQ
          (process_node t n)).nodes
      + emitCnt frames.length s.current_frame k = 1
    have b1 := cntId_busy_set s.workers i _ (.idle) hw k
    have b1a : cntId k (phaseNodes (WorkerPhase.idle : WorkerPhase α))
        = 0 := rfl
    have b1b : cntId k (phaseNodes (WorkerPhase.busy n))
        = (if n.frame_number = k ∧ n.is_the_last_node = false then 1
           else 0) := by
      rw [show phaseNodes (WorkerPhase.busy n) = [n] from rfl,
        cntId_singleton]
    have e3 := inv.ledger k hk1 hk2
    have o1k := o1 k
    omega
  case pop_eq =>
    intro k
    show s.popCount k
      = cntId k (busyNodes (s.workers.set i .idle))
        + cntId k (add_to_output_work_queue s.outQ
            (process_node t n)).nodes
        + emitCnt frames.length s.current_frame k
    have b1 := cntId_busy_set s.workers i _ (.idle) hw k
    have b1a : cntId k (phaseNodes (WorkerPhase.idle : WorkerPhase α))
        = 0 := rfl
    have b1b : cntId k (phaseNodes (WorkerPhase.busy n))
        = (if n.frame_number = k ∧ n.is_the_last_node = false then 1
           else 0) := by
      rw [show phaseNodes (WorkerPhase.busy n) = [n] from rfl,
        cntId_singleton]
    have e3 := inv.pop_eq k
    have o1k := o1 k
    omega
  case proc_eq =>
    intro k
    show (if n.frame_number = k then s.procCount k + 1
        else s.procCount k)
      = cntId k (add_to_output_work_queue s.outQ
          (process_node t n)).nodes
        + emitCnt frames.length s.current_frame k
    have e3 := inv.proc_eq k
    have o1k := o1 k
    by_cases hC : n.frame_number = k
    · rw [if_pos hC]
      rw [if_pos ⟨hC, hn⟩] at o1k
      omega
    · rw [if_neg hC]
      rw [if_neg (fun hc => hC hc.1)] at o1k
      omega
  case terms_reading => exact inv.terms_reading
  case terms_sending => exact inv.terms_sending
  case term_ledger =>
    show cntTerm s.inQ.nodes
      + cntTerm (busyNodes (s.workers.set i .idle))
      + cntTerm (add_to_output_work_queue s.outQ
          (process_node t n)).nodes
      + (if s.emitDone then 1 else 0) = s.termsCreated
    have b1 := cntTerm_busy_set s.workers i _ (.idle) hw
    have b1a : cntTerm (phaseNodes (WorkerPhase.idle : WorkerPhase α))
        = 0 := rfl
    have b1b : cntTerm (phaseNodes (WorkerPhase.busy n))
        = (if n.is_the_last_node = true then 1 else 0) := by
      rw [show phaseNodes (WorkerPhase.busy n) = [n] from rfl,
        cntTerm_singleton]
    have e3 := inv.term_ledger
    omega
  case term_pops_idle =>
    intro j hj
    by_cases hji : j = i
    · subst hji
      have := inv.term_pops_busy j n hw
      rw [if_neg (fun hc => by rw [hn] at hc; exact Bool.noConfusion hc)]
        at this
      exact this
    · rw [get?_set_other s.workers i j _ (fun h => hji h.symm)] at hj
      exact inv.term_pops_idle j hj
  case term_pops_busy =>
    intro j m hj
    by_cases hji : j = i
    · subst hji
      rw [get?_set_self s.workers j _ .idle hw] at hj
      injection hj with hj2
      exact WorkerPhase.noConfusion hj2
    · rw [get?_set_other s.workers i j _ (fun h => hji h.symm)] at hj
      exact inv.term_pops_busy j m hj
  case term_pops_done =>
    intro j hj
    by_cases hji : j = i
    · subst hji
      rw [get?_set_self s.workers j _ .idle hw] at hj
      injection hj with hj2
      exact WorkerPhase.noConfusion hj2
    · rw [get?_set_other s.workers i j _ (fun h => hji h.symm)] at hj
      exact inv.term_pops_done j hj
  case term_pops_out =>
    intro j hj
    have hj0 : (s.workers.set i .idle).length ≤ j := hj
    rw [List.length_set] at hj0
    exact inv.term_pops_out j hj0
  case done_count =>
    show (s.workers.set i .idle).countP isDone
      = cntTerm (add_to_output_work_queue s.outQ
          (process_node t n)).nodes
        + (if s.emitDone then 1 else 0)
    have hcnt := countP_set isDone s.workers i _ (.idle) hw
    simp only [isDone] at hcnt
    have e3 := inv.done_count
    omega

theorem Inv1_step_worker_push_last {t : α → α} {frames : List α}
    {N : Nat} {s : S1 α} (inv : Inv1 t frames N s) (i : Nat)
    (n : WorkNode α)
    (hw : s.workers.get? i = some (.busy n))
    (hn : n.is_the_last_node = true) :
    Inv1 t frames N { s with
      outQ := add_to_output_work_queue s.outQ n
      workers := s.workers.set i .done } := by
  have hmemn : n ∈ busyNodes s.workers := busy_mem_of_get? s.workers i n hw
  have hraw := inv.busy_raw n hmemn
  have hcap2 : cap1 frames ({ s with
      outQ := add_to_output_work_queue s.outQ n
      workers := s.workers.set i .done } : S1 α) = cap1 frames s := rfl
  have o1 : ∀ k, cntId k (add_to_output_work_queue s.outQ n).nodes
      = cntId k s.outQ.nodes
        + (if n.frame_number = k ∧ n.is_the_last_node = false then 1
           else 0) :=
    fun k => cntId_add_to_output s.outQ n k inv.outq_size
  have ot1 : cntTerm (add_to_output_work_queue s.outQ n).nodes
      = cntTerm s.outQ.nodes
        + (if n.is_the_last_node = true then 1 else 0) :=
    cntTerm_add_to_output s.outQ n inv.outq_size
  have hterm1 : (if n.is_the_last_node = true then 1 else 0) = 1 :=
    if_pos hn
  have hid0 : ∀ k,
      (if n.frame_number = k ∧ n.is_the_last_node = false then 1
       else 0) = 0 :=
    fun k => if_neg (fun hc => by
      rw [hn] at hc
      exact Bool.noConfusion hc.2)
  constructor
  case inq_size => exact inv.inq_size
  case outq_size => exact add_to_output_consistent _ _ inv.outq_size
  case workers_len =>
    show (s.workers.set i .done).length = N
    rw [List.length_set]
    exact inv.workers_len
  case src_reading => exact inv.src_reading
  case src_sending => exact inv.src_sending
  case inq_raw =>
    intro m hm
    rw [hcap2]
    exact inv.inq_raw m hm
  case busy_raw =>
    intro m hm
    rw [hcap2]
    rcases mem_busy_set s.workers i _ _ hw m hm with hm | hm
    · simp [phaseNodes] at hm
    · exact inv.busy_raw m hm
  case outq_proc =>
    intro m hm
    rw [hcap2]
    rcases mem_add_to_output _ _ _ inv.outq_size hm with hm | hm
    · subst hm
      exact ProcAt_of_RawAt_term hraw hn
    · exact inv.outq_proc m hm
  case outq_sorted => exact add_to_output_sorted _ _ inv.outq_sorted
  case cursor_le =>
    intro he
    rw [hcap2]
    exact inv.cursor_le he
  case cursor_done =>
    intro he
    rw [hcap2]
    exact inv.cursor_done he
  case emitted_eq => exact inv.emitted_eq
  case ledger =>
    intro k hk1 hk2
    rw [hcap2] at hk2
    show cntId k s.inQ.nodes
      + cntId k (busyNodes (s.workers.set i .done))
      + cntId k (add_to_output_work_queue s.outQ n).nodes
      + emitCnt frames.length s.current_frame k = 1
    have b1 := cntId_busy_set s.workers i _ (.done) hw k
    have b1a : cntId k (phaseNodes (WorkerPhase.done : WorkerPhase α))
        = 0 := rfl
    have b1b : cntId k (phaseNodes (WorkerPhase.busy n))
        = (if n.frame_number = k ∧ n.is_the_last_node = false then 1
           else 0) := by
      rw [show phaseNodes (WorkerPhase.busy n) = [n] from rfl,
        cntId_singleton]
    have e3 := inv.ledger k hk1 hk2
    have o1k := o1 k
    omega
  case pop_eq =>
    intro k
    show s.popCount k
      = cntId k (busyNodes (s.workers.set i .done))
        + cntId k (add_to_output_work_queue s.outQ n).nodes
        + emitCnt frames.length s.current_frame k
    have b1 := cntId_busy_set s.workers i _ (.done) hw k
    have b1a : cntId k (phaseNodes (WorkerPhase.done : WorkerPhase α))
        = 0 := rfl
    have b1b : cntId k (phaseNodes (WorkerPhase.busy n))
        = (if n.frame_number = k ∧ n.is_the_last_node = false then 1
           else 0) := by
      rw [show phaseNodes (WorkerPhase.busy n) = [n] from rfl,
        cntId_singleton]
    have e3 := inv.pop_eq k
    have o1k := o1 k
    omega
  case proc_eq =>
    intro k
    show s.procCount k
      = cntId k (add_to_output_work_queue s.outQ n).nodes
        + emitCnt frames.length s.current_frame k
    have e3 := inv.proc_eq k
    have o1k := o1 k
    have := hid0 k
    omega
  case terms_reading => exact inv.terms_reading
  case terms_sending => exact inv.terms_sending
  case term_ledger =>
    show cntTerm s.inQ.nodes
      + cntTerm (busyNodes (s.workers.set i .done))
      + cntTerm (add_to_output_work_queue s.outQ n).nodes
      + (if s.emitDone then 1 else 0) = s.termsCreated
    have b1 := cntTerm_busy_set s.workers i _ (.done) hw
    have b1a : cntTerm (phaseNodes (WorkerPhase.done : WorkerPhase α))
        = 0 := rfl
    have b1b : cntTerm (phaseNodes (WorkerPhase.busy n))
        = (if n.is_the_last_node = true then 1 else 0) := by
      rw [show phaseNodes (WorkerPhase.busy n) = [n] from rfl,
        cntTerm_singleton]
    have e3 := inv.term_ledger
    omega
  case term_pops_idle =>
    intro j hj
    by_cases hji : j = i
    · subst hji
      rw [get?_set_self s.workers j _ .done hw] at hj
      injection hj with hj2
      exact WorkerPhase.noConfusion hj2
    · rw [get?_set_other s.workers i j _ (fun h => hji h.symm)] at hj
      exact inv.term_pops_idle j hj
  case term_pops_busy =>
    intro j m hj
    by_cases hji : j = i
    · subst hji
      rw [get?_set_self s.workers j _ .done hw] at hj
      injection hj with hj2
      exact WorkerPhase.noConfusion hj2
    · rw [get?_set_other s.workers i j _ (fun h => hji h.symm)] at hj
      exact inv.term_pops_busy j m hj
  case term_pops_done =>
    intro j hj
    by_cases hji : j = i
    · subst hji
      have := inv.term_pops_busy j n hw
      rw [if_pos hn] at this
      exact this
    · rw [get?_set_other s.workers i j _ (fun h => hji h.symm)] at hj
      exact inv.term_pops_done j hj
  case term_pops_out =>
    intro j hj
    have hj0 : (s.workers.set i .done).length ≤ j := hj
    rw [List.length_set] at hj0
    exact inv.term_pops_out j hj0
  case done_count =>
    show (s.workers.set i .done).countP isDone
      = cntTerm (add_to_output_work_queue s.outQ n).nodes
        + (if s.emitDone then 1 else 0)
    have hcnt := countP_set isDone s.workers i _ (.done) hw
    simp [isDone] at hcnt
    have e3 := inv.done_count
    omega

theorem Inv1_step_emit_frame {t : α → α} {frames : List α} {N : Nat}
    {s : S1 α} (inv : Inv1 t frames N s) (n : WorkNode α)
    (q : WorkQueue α) (he : s.emitDone = false)
    (hh : get_head_id_from_output_work_queue s.outQ
      = some (s.current_frame + 1))
    (hq : remove_from_output_work_queue s.outQ = (some n, q))
    (hn : n.is_the_last_node = false) :
    Inv1 t frames N { s with
      outQ := q
      current_frame := s.current_frame + 1
      emitted := s.emitted ++ n.frame.toList } := by
  obtain ⟨hnodes, hsize⟩ := remove_output_spec _ _ _ hq
  have hgh := get_head_id_of_cons s.outQ n q.nodes hnodes
  have hid : n.frame_number = s.current_frame + 1 := by
    rw [hgh] at hh
    injection hh
  have hmemn : n ∈ s.outQ.nodes := by
    rw [hnodes]
    exact List.mem_cons_self n q.nodes
  obtain ⟨hp1, hp2, hp3⟩ := ProcAt_frame (inv.outq_proc n hmemn) hn
  have hcle := inv.cursor_le he
  have hcap_le := Inv1_cap_le inv
  have hcM : s.current_frame + 1 ≤ frames.length := by omega
  have hclt : s.current_frame < frames.length := by omega
  have hgc : frames.get? s.current_frame
      = some (frames.get ⟨s.current_frame, hclt⟩) := List.get?_eq_get hclt
  have hf1 : n.frame = (frames.get? s.current_frame).map t := by
    rw [hp3, hid]
    simp
  have hframe : n.frame
      = some (t (frames.get ⟨s.current_frame, hclt⟩)) := by
    rw [hf1, hgc]
    rfl
  have hcap2 : cap1 frames ({ s with
      outQ := q
      current_frame := s.current_frame + 1
      emitted := s.emitted ++ n.frame.toList } : S1 α)
      = cap1 frames s := rfl
  have e1 : ∀ k, cntId k s.outQ.nodes = cntId k q.nodes
      + (if n.frame_number = k ∧ n.is_the_last_node = false then 1
         else 0) := by
    intro k
    rw [hnodes, cntId_cons]
  have em1 : ∀ k, emitCnt frames.length (s.current_frame + 1) k
      = emitCnt frames.length s.current_frame k
        + (if n.frame_number = k ∧ n.is_the_last_node = false then 1
           else 0) := by
    intro k
    by_cases hk : n.frame_number = k
    · rw [if_pos ⟨hk, hn⟩]
      unfold emitCnt
      split_ifs <;> omega
    · rw [if_neg (fun hc => hk hc.1)]
      unfold emitCnt
      split_ifs <;> omega
  have ht0 : (if n.is_the_last_node = true then 1 else 0) = 0 :=
    if_neg (fun hc => by rw [hn] at hc; exact Bool.noConfusion hc)
  have e1t : cntTerm s.outQ.nodes = cntTerm q.nodes
      + (if n.is_the_last_node = true then 1 else 0) := by
    rw [hnodes, cntTerm_cons]
  constructor
  case inq_size => exact inv.inq_size
  case outq_size =>
    show q.size = q.nodes.length
    have h2 := congrArg List.length hnodes
    simp at h2
    have := inv.outq_size
    omega
  case workers_len => exact inv.workers_len
  case src_reading => exact inv.src_reading
  case src_sending => exact inv.src_sending
  case inq_raw =>
    intro m hm
    rw [hcap2]
    exact inv.inq_raw m hm
  case busy_raw =>
    intro m hm
    rw [hcap2]
    exact inv.busy_raw m hm
  case outq_proc =>
    intro m hm
    rw [hcap2]
    refine inv.outq_proc m ?_
    rw [hnodes]
    exact List.mem_cons_of_mem n hm
  case outq_sorted =>
    have h0 := inv.outq_sorted
    rw [hnodes] at h0
    unfold OutSorted at h0 ⊢
    rw [List.pairwise_cons] at h0
    exact h0.2
  case cursor_le =>
    intro _
    rw [hcap2]
    show s.current_frame + 1 ≤ cap1 frames s
    omega
  case cursor_done =>
    intro he2
    have he3 : s.emitDone = true := he2
    rw [he] at he3
    exact Bool.noConfusion he3
  case emitted_eq =>
    show s.emitted ++ n.frame.toList
      = (frames.take (s.current_frame + 1)).map t
    have hgc2 : frames[s.current_frame]?
        = some (frames.get ⟨s.current_frame, hclt⟩) := by
      rw [← List.get?_eq_getElem?]
      exact hgc
    rw [inv.emitted_eq, hframe, List.take_succ, hgc2, List.map_append]
    rfl
  case ledger =>
    intro k hk1 hk2
    rw [hcap2] at hk2
    show cntId k s.inQ.nodes + cntId k (busyNodes s.workers)
      + cntId k q.nodes
      + emitCnt frames.length (s.current_frame + 1) k = 1
    have e3 := inv.ledger k hk1 hk2
    have h1 := e1 k
    have h2 := em1 k
    omega
  case pop_eq =>
    intro k
    show s.popCount k = cntId k (busyNodes s.workers) + cntId k q.nodes
      + emitCnt frames.length (s.current_frame + 1) k
    have e3 := inv.pop_eq k
    have h1 := e1 k
    have h2 := em1 k
    omega
  case proc_eq =>
    intro k
    show s.procCount k = cntId k q.nodes
      + emitCnt frames.length (s.current_frame + 1) k
    have e3 := inv.proc_eq k
    have h1 := e1 k
    have h2 := em1 k
    omega
  case terms_reading => exact inv.terms_reading
  case terms_sending => exact inv.terms_sending
  case term_ledger =>
    show cntTerm s.inQ.nodes + cntTerm (busyNodes s.workers)
      + cntTerm q.nodes + (if s.emitDone then 1 else 0)
      = s.termsCreated
    have e3 := inv.term_ledger
    omega
  case term_pops_idle => exact inv.term_pops_idle
  case term_pops_busy => exact inv.term_pops_busy
  case term_pops_done => exact inv.term_pops_done
  case term_pops_out => exact inv.term_pops_out
  case done_count =>
    show s.workers.countP isDone
      = cntTerm q.nodes + (if s.emitDone then 1 else 0)
    have e3 := inv.done_count
    omega

theorem Inv1_step_emit_last {t : α → α} {frames : List α} {N : Nat}
    {s : S1 α} (inv : Inv1 t frames N s) (n : WorkNode α)
    (q : WorkQueue α) (he : s.emitDone = false)
    (hh : get_head_id_from_output_work_queue s.outQ
      = some (s.current_frame + 1))
    (hq : remove_from_output_work_queue s.outQ = (some n, q))
    (hn : n.is_the_last_node = true) :
    Inv1 t frames N { s with
      outQ := q
      current_frame := s.current_frame + 1
      emitDone := true } := by
  obtain ⟨hnodes, hsize⟩ := remove_output_spec _ _ _ hq
  have hgh := get_head_id_of_cons s.outQ n q.nodes hnodes
  have hid : n.frame_number = s.current_frame + 1 := by
    rw [hgh] at hh
    injection hh
  have hmemn : n ∈ s.outQ.nodes := by
    rw [hnodes]
    exact List.mem_cons_self n q.nodes
  obtain ⟨hpf, hpid⟩ := ProcAt_term (inv.outq_proc n hmemn) hn
  have hcle := inv.cursor_le he
  have hcap_le := Inv1_cap_le inv
  have hcM : s.current_frame = frames.length := by omega
  have hcap2 : cap1 frames ({ s with
      outQ := q
      current_frame := s.current_frame + 1
      emitDone := true } : S1 α) = cap1 frames s := rfl
  have hid0 : ∀ k,
      (if n.frame_number = k ∧ n.is_the_last_node = false then 1
       else 0) = 0 :=
    fun k => if_neg (fun hc => by
      rw [hn] at hc
      exact Bool.noConfusion hc.2)
  have e1 : ∀ k, cntId k s.outQ.nodes = cntId k q.nodes
      + (if n.frame_number = k ∧ n.is_the_last_node = false then 1
         else 0) := by
    intro k
    rw [hnodes, cntId_cons]
  have em1 : ∀ k, emitCnt frames.length (s.current_frame + 1) k
      = emitCnt frames.length s.current_frame k := by
    intro k
    unfold emitCnt
    split_ifs <;> omega
  have e1t : cntTerm s.outQ.nodes = cntTerm q.nodes
      + (if n.is_the_last_node = true then 1 else 0) := by
    rw [hnodes, cntTerm_cons]
  have ht1 : (if n.is_the_last_node = true then 1 else 0) = 1 :=
    if_pos hn
  have hd0 : (if s.emitDone then 1 else 0) = 0 := by
    rw [he]
    rfl
  constructor
  case inq_size => exact inv.inq_size
  case outq_size =>
    show q.size = q.nodes.length
    have h2 := congrArg List.length hnodes
    simp at h2
    have := inv.outq_size
    omega
  case workers_len => exact inv.workers_len
  case src_reading => exact inv.src_reading
  case src_sending => exact inv.src_sending
  case inq_raw =>
    intro m hm
    rw [hcap2]
    exact inv.inq_raw m hm
  case busy_raw =>
    intro m hm
    rw [hcap2]
    exact inv.busy_raw m hm
  case outq_proc =>
    intro m hm
    rw [hcap2]
    refine inv.outq_proc m ?_
    rw [hnodes]
    exact List.mem_cons_of_mem n hm
  case outq_sorted =>
    have h0 := inv.outq_sorted
    rw [hnodes] at h0
    unfold OutSorted at h0 ⊢
    rw [List.pairwise_cons] at h0
    exact h0.2
  case cursor_le =>
    intro he2
    exact Bool.noConfusion (show true = false from he2)
  case cursor_done =>
    intro _
    rw [hcap2]
    constructor
    · show s.current_frame + 1 = frames.length + 1
      omega
    · omega
  case emitted_eq =>
    show s.emitted = (frames.take (s.current_frame + 1)).map t
    rw [inv.emitted_eq]
    have h1 : frames.take s.current_frame = frames := by
      rw [hcM]
      exact List.take_length frames
    have h2 : frames.take (s.current_frame + 1) = frames := by
      refine List.take_of_length_le ?_
      omega
    rw [h1, h2]
  case ledger =>
    intro k hk1 hk2
    rw [hcap2] at hk2
    show cntId k s.inQ.nodes + cntId k (busyNodes s.workers)
      + cntId k q.nodes
      + emitCnt frames.length (s.current_frame + 1) k = 1
    have e3 := inv.ledger k hk1 hk2
    have h1 := e1 k
    have h2 := em1 k
    have h3 := hid0 k
    omega
  case pop_eq =>
    intro k
    show s.popCount k = cntId k (busyNodes s.workers) + cntId k q.nodes
      + emitCnt frames.length (s.current_frame + 1) k
    have e3 := inv.pop_eq k
    have h1 := e1 k
    have h2 := em1 k
    have h3 := hid0 k
    omega
  case proc_eq =>
    intro k
    show s.procCount k = cntId k q.nodes
      + emitCnt frames.length (s.current_frame + 1) k
    have e3 := inv.proc_eq k
    have h1 := e1 k
    have h2 := em1 k
    have h3 := hid0 k
    omega
  case terms_reading => exact inv.terms_reading
  case terms_sending => exact inv.terms_sending
  case term_ledger =>
    show cntTerm s.inQ.nodes + cntTerm (busyNodes s.workers)
      + cntTerm q.nodes + (if (true : Bool) then 1 else 0)
      = s.termsCreated
    have e3 := inv.term_ledger
    have h4 : (if (true : Bool) then 1 else 0) = 1 := rfl
    omega
  case term_pops_idle => exact inv.term_pops_idle
  case term_pops_busy => exact inv.term_pops_busy
  case term_pops_done => exact inv.term_pops_done
  case term_pops_out => exact inv.term_pops_out
  case done_count =>
    show s.workers.countP isDone
      = cntTerm q.nodes + (if (true : Bool) then 1 else 0)
    have e3 := inv.done_count
    have h4 : (if (true : Bool) then 1 else 0) = 1 := rfl
    omega

/-- The invariant is preserved by every transition of the staged
pipeline. -/
theorem Inv1_step {t : α → α} {frames : List α} {N : Nat} {s s2 : S1 α}
    (inv : Inv1 t frames N s) (hstep : Step1 t s s2) :
    Inv1 t frames N s2 := by
  cases hstep with
  | ingest_frame p rest hr hp =>
    exact Inv1_step_ingest_frame inv p rest hr hp
  | ingest_empty N0 hr hp hw =>
    exact Inv1_step_ingest_empty inv N0 hr hp hw
  | ingest_sentinel k hs =>
    exact Inv1_step_ingest_sentinel inv k hs
  | worker_pop i n q hw hq =>
    exact Inv1_step_worker_pop inv i n q hw hq
  | worker_push_frame i n hw hn =>
    exact Inv1_step_worker_push_frame inv i n hw hn
  | worker_push_last i n hw hn =>
    exact Inv1_step_worker_push_last inv i n hw hn
  | emit_frame n q he hh hq hn =>
    exact Inv1_step_emit_frame inv n q he hh hq hn
  | emit_last n q he hh hq hn =>
    exact Inv1_step_emit_last inv n q he hh hq hn

/-- Every reachable state of the staged pipeline satisfies the
invariant. -/
theorem Inv1_reach {t : α → α} {frames : List α} {N : Nat} {s : S1 α}
    (h : Reach1 t frames N s) : Inv1 t frames N s := by
  induction h with
  | init => exact Inv1_init t frames N
  | step s s2 hr hstep ih => exact Inv1_step ih hstep

/-! ## The invariant of the cooperative v2 pipeline -/

theorem cap2_flag_true {frames : List α} {s : S2 α}
    (h : s.is_there_any_frame = true) :
    cap2 frames s = s.nframes - 1 := by
  unfold cap2
  rw [h]
  rfl

theorem cap2_flag_false {frames : List α} {s : S2 α}
    (h : s.is_there_any_frame = false) :
    cap2 frames s = frames.length := by
  unfold cap2
  rw [h]
  rfl

theorem Inv2_cap_le {t : α → α} {frames : List α} {N : Nat} {s : S2 α}
    (inv : Inv2 t frames N s) : cap2 frames s ≤ frames.length := by
  cases hf : s.is_there_any_frame with
  | true =>
    rw [cap2_flag_true hf]
    exact (inv.src_t hf).2.1
  | false =>
    rw [cap2_flag_false hf]

theorem mem_allNodes2_inq {s : S2 α} {n : WorkNode α}
    (h : n ∈ s.inQ.nodes) : n ∈ allNodes2 s := by
  unfold allNodes2
  exact List.mem_append.mpr (Or.inl (List.mem_append.mpr (Or.inl h)))

theorem mem_allNodes2_busy {s : S2 α} {n : WorkNode α}
    (h : n ∈ busyNodes s.workers) : n ∈ allNodes2 s := by
  unfold allNodes2
  exact List.mem_append.mpr (Or.inl (List.mem_append.mpr (Or.inr h)))

theorem mem_allNodes2_out {s : S2 α} {n : WorkNode α}
    (h : n ∈ s.outQ.nodes) : n ∈ allNodes2 s := by
  unfold allNodes2
  exact List.mem_append.mpr (Or.inr h)

theorem Inv2_init (t : α → α) (frames : List α) (N : Nat) :
    Inv2 t frames N (S2.init α frames N) := by
  have hw : (S2.init α frames N).workers
      = List.replicate N WorkerPhase.idle := rfl
  constructor
  case inq_size => rfl
  case outq_size => rfl
  case workers_len => simp [S2.init]
  case src_t =>
    intro _
    exact ⟨le_refl 1, Nat.zero_le _, by simp [S2.init]⟩
  case src_f =>
    intro h
    simp [S2.init] at h
  case inq_raw =>
    intro n hn
    simp [S2.init, emptyWorkQueue] at hn
  case busy_raw =>
    intro n hn
    rw [hw, busyNodes_replicate_idle] at hn
    simp at hn
  case outq_proc =>
    intro n hn
    simp [S2.init, emptyWorkQueue] at hn
  case outq_sorted => simp [S2.init, emptyWorkQueue, OutSorted]
  case cursor_lo => exact le_refl 1
  case cursor_le =>
    intro _
    exact Nat.zero_le _
  case cursor_done =>
    intro h
    simp [S2.init] at h
  case emitted_eq => simp [S2.init]
  case terms_created => rfl
  case term_flag =>
    intro n hn _
    unfold allNodes2 at hn
    rw [hw, busyNodes_replicate_idle] at hn
    simp [S2.init, emptyWorkQueue] at hn
  case fin_flag =>
    intro h
    simp [S2.init] at h

theorem Inv2_step_ingest_frame {t : α → α} {frames : List α} {N : Nat}
    {s : S2 α} (inv : Inv2 t frames N s) (p : α) (rest : List α)
    (hf : s.finished = false) (ha : s.is_there_any_frame = true)
    (hp : s.pending = p :: rest) :
    Inv2 t frames N { s with
      pending := rest
      nframes := s.nframes + 1
      inQ := add_to_input_work_queue s.inQ
        { frame := some p, frame_number := s.nframes,
          is_the_last_node := false } } := by
  obtain ⟨hn1, hnle, hpend⟩ := inv.src_t ha
  have hdrop : frames.drop (s.nframes - 1) = p :: rest := by
    rw [← hpend]
    exact hp
  have hget : frames.get? (s.nframes - 1) = some p :=
    get?_of_drop_cons hdrop
  have hdrop2 : frames.drop (s.nframes - 1 + 1) = rest :=
    drop_cons_succ hdrop
  have hnf : s.nframes - 1 + 1 = s.nframes := by omega
  have hlt : s.nframes - 1 < frames.length := by
    have hh := congrArg List.length hdrop
    rw [List.length_drop] at hh
    simp at hh
    omega
  have hcap : cap2 frames s = s.nframes - 1 := cap2_flag_true ha
  have hcap2 : cap2 frames ({ s with
      pending := rest
      nframes := s.nframes + 1
      inQ := add_to_input_work_queue s.inQ
        { frame := some p, frame_number := s.nframes,
          is_the_last_node := false } } : S2 α) = s.nframes :=
    cap2_flag_true ha
  constructor
  case inq_size => exact add_to_input_consistent _ _ inv.inq_size
  case outq_size => exact inv.outq_size
  case workers_len => exact inv.workers_len
  case src_t =>
    intro _
    refine ⟨?_, ?_, ?_⟩
    · show (1 : Nat) ≤ s.nframes + 1
      omega
    · show s.nframes + 1 - 1 ≤ frames.length
      omega
    · show rest = frames.drop (s.nframes + 1 - 1)
      rw [show s.nframes + 1 - 1 = s.nframes from rfl, ← hnf]
      exact hdrop2.symm
  case src_f =>
    intro h
    have h2 : s.is_there_any_frame = false := h
    rw [ha] at h2
    exact Bool.noConfusion h2
  case inq_raw =>
    intro n hn
    rw [hcap2]
    rcases mem_add_to_input _ _ _ inv.inq_size hn with hn | hn
    · subst hn
      refine RawAt_intro_frame rfl ?_ ?_ ?_
      · show (1 : Nat) ≤ s.nframes
        omega
      · show s.nframes ≤ s.nframes
        omega
      · show some p = frames.get? (s.nframes - 1)
        exact hget.symm
    · have h0 := inv.inq_raw n hn
      refine RawAt_mono h0 ?_
      rw [hcap]
      omega
  case busy_raw =>
    intro n hn
    rw [hcap2]
    have h0 := inv.busy_raw n hn
    refine RawAt_mono h0 ?_
    rw [hcap]
    omega
  case outq_proc =>
    intro n hn
    rw [hcap2]
    have h0 := inv.outq_proc n hn
    refine ProcAt_mono h0 ?_
    rw [hcap]
    omega
  case outq_sorted => exact inv.outq_sorted
  case cursor_lo => exact inv.cursor_lo
  case cursor_le =>
    intro hf2
    have h0 := inv.cursor_le hf2
    rw [hcap2]
    show s.current_frame - 1 ≤ s.nframes
    rw [hcap] at h0
    omega
  case cursor_done => exact inv.cursor_done
  case emitted_eq => exact inv.emitted_eq
  case terms_created => exact inv.terms_created
  case term_flag =>
    intro n hn ht
    unfold allNodes2 at hn
    simp only [List.mem_append] at hn
    have hmem : n ∈ allNodes2 s := by
      rcases hn with (hn | hn) | hn
      · rcases mem_add_to_input _ _ _ inv.inq_size hn with hn | hn
        · subst hn
          exact Bool.noConfusion (show false = true from ht)
        · exact mem_allNodes2_inq hn
      · exact mem_allNodes2_busy hn
      · exact mem_allNodes2_out hn
    have hff := inv.term_flag n hmem ht
    rw [ha] at hff
    exact Bool.noConfusion hff
  case fin_flag =>
    intro h
    have h2 : s.finished = true := h
    rw [hf] at h2
    exact Bool.noConfusion h2

theorem Inv2_step_ingest_empty {t : α → α} {frames : List α} {N : Nat}
    {s : S2 α} (inv : Inv2 t frames N s)
    (hf : s.finished = false) (ha : s.is_there_any_frame = true)
    (hp : s.pending = []) :
    Inv2 t frames N { s with
      nframes := s.nframes + 1
      inQ := add_to_input_work_queue s.inQ
        { frame := none, frame_number := s.nframes,
          is_the_last_node := true }
      is_there_any_frame := false
      termsCreated := s.termsCreated + 1 } := by
  obtain ⟨hn1, hnle, hpend⟩ := inv.src_t ha
  have hM : s.nframes - 1 = frames.length := by
    have h2 : frames.drop (s.nframes - 1) = [] := by
      rw [← hpend]
      exact hp
    have h3 := congrArg List.length h2
    rw [List.length_drop] at h3
    simp at h3
    omega
  have hcap : cap2 frames s = s.nframes - 1 := cap2_flag_true ha
  have hcap2 : cap2 frames ({ s with
      nframes := s.nframes + 1
      inQ := add_to_input_work_queue s.inQ
        { frame := none, frame_number := s.nframes,
          is_the_last_node := true }
      is_there_any_frame := false
      termsCreated := s.termsCreated + 1 } : S2 α) = frames.length :=
    cap2_flag_false rfl
  constructor
  case inq_size => exact add_to_input_consistent _ _ inv.inq_size
  case outq_size => exact inv.outq_size
  case workers_len => exact inv.workers_len
  case src_t =>
    intro h
    exact Bool.noConfusion (show false = true from h)
  case src_f =>
    intro _
    constructor
    · show s.nframes + 1 = frames.length + 2
      omega
    · exact hp
  case inq_raw =>
    intro n hn
    rw [hcap2]
    rcases mem_add_to_input _ _ _ inv.inq_size hn with hn | hn
    · subst hn
      refine RawAt_intro_term rfl rfl ?_
      show s.nframes = frames.length + 1
      omega
    · have h0 := inv.inq_raw n hn
      refine RawAt_mono h0 ?_
      rw [hcap]
      omega
  case busy_raw =>
    intro n hn
    rw [hcap2]
    have h0 := inv.busy_raw n hn
    refine RawAt_mono h0 ?_
    rw [hcap]
    omega
  case outq_proc =>
    intro n hn
    rw [hcap2]
    have h0 := inv.outq_proc n hn
    refine ProcAt_mono h0 ?_
    rw [hcap]
    omega
  case outq_sorted => exact inv.outq_sorted
  case cursor_lo => exact inv.cursor_lo
  case cursor_le =>
    intro hf2
    have h0 := inv.cursor_le hf2
    rw [hcap2]
    show s.current_frame - 1 ≤ frames.length
    rw [hcap] at h0
    omega
  case cursor_done => exact inv.cursor_done
  case emitted_eq => exact inv.emitted_eq
  case terms_created =>
    show s.termsCreated + 1 = (if (false : Bool) then 0 else 1)
    have h0 := inv.terms_created
    rw [ha] at h0
    simp at h0
    simp [h0]
  case term_flag =>
    intro n hn ht
    rfl
  case fin_flag =>
    intro _
    rfl

theorem Inv2_step_worker_pop {t : α → α} {frames : List α} {N : Nat}
    {s : S2 α} (inv : Inv2 t frames N s) (i : Nat) (n : WorkNode α)
    (q : WorkQueue α)
    (ha : s.is_there_any_work = true)
    (hw : s.workers.get? i = some .idle)
    (hq : remove_from_input_work_queue s.inQ = (some n, q)) :
    Inv2 t frames N { s with
      inQ := q
      workers := s.workers.set i (.busy n) } := by
  obtain ⟨hnodes, hsize⟩ := remove_input_spec _ _ _ hq
  have hmemn : n ∈ s.inQ.nodes := by
    rw [hnodes]
    exact List.mem_cons_self n q.nodes
  have hcap2 : cap2 frames ({ s with
      inQ := q
      workers := s.workers.set i (.busy n) } : S2 α)
      = cap2 frames s := rfl
  constructor
  case inq_size =>
    show q.size = q.nodes.length
    have h2 := congrArg List.length hnodes
    simp at h2
    have := inv.inq_size
    omega
  case outq_size => exact inv.outq_size
  case workers_len =>
    show (s.workers.set i (.busy n)).length = N
    rw [List.length_set]
    exact inv.workers_len
  case src_t => exact inv.src_t
  case src_f => exact inv.src_f
  case inq_raw =>
    intro m hm
    rw [hcap2]
    refine inv.inq_raw m ?_
    rw [hnodes]
    exact List.mem_cons_of_mem n hm
  case busy_raw =>
    intro m hm
    rw [hcap2]
    rcases mem_busy_set s.workers i _ _ hw m hm with hm | hm
    · have hmn : m = n := by simpa [phaseNodes] using hm
      subst hmn
      exact inv.inq_raw m hmemn
    · exact inv.busy_raw m hm
  case outq_proc =>
    intro m hm
    rw [hcap2]
    exact inv.outq_proc m hm
  case outq_sorted => exact inv.outq_sorted
  case cursor_lo => exact inv.cursor_lo
  case cursor_le =>
    intro hf2
    rw [hcap2]
    exact inv.cursor_le hf2
  case cursor_done => exact inv.cursor_done
  case emitted_eq => exact inv.emitted_eq
  case terms_created => exact inv.terms_created
  case term_flag =>
    intro m2 hm2 ht
    unfold allNodes2 at hm2
    simp only [List.mem_append] at hm2
    have hmem : m2 ∈ allNodes2 s := by
      rcases hm2 with (hm2 | hm2) | hm2
      · refine mem_allNodes2_inq ?_
        rw [hnodes]
        exact List.mem_cons_of_mem n hm2
      · rcases mem_busy_set s.workers i _ _ hw m2 hm2 with hm2 | hm2
        · have hm3 : m2 = n := by simpa [phaseNodes] using hm2
          subst hm3
          exact mem_allNodes2_inq hmemn
        · exact mem_allNodes2_busy hm2
      · exact mem_allNodes2_out hm2
    exact inv.term_flag m2 hmem ht
  case fin_flag =>
    intro h
    exact inv.fin_flag h

theorem Inv2_step_worker_push_frame {t : α → α} {frames : List α}
    {N : Nat} {s : S2 α} (inv : Inv2 t frames N s) (i : Nat)
    (n : WorkNode α)
    (hw : s.workers.get? i = some (.busy n))
    (hn : n.is_the_last_node = false) :
    Inv2 t frames N { s with
      outQ := add_to_output_work_queue s.outQ (process_node t n)
      workers := s.workers.set i .idle } := by
  have hmemn : n ∈ busyNodes s.workers := busy_mem_of_get? s.workers i n hw
  have hraw := inv.busy_raw n hmemn
  have hcap2 : cap2 frames ({ s with
      outQ := add_to_output_work_queue s.outQ (process_node t n)
      workers := s.workers.set i .idle } : S2 α)
      = cap2 frames s := rfl
  constructor
  case inq_size => exact inv.inq_size
  case outq_size => exact add_to_output_consistent _ _ inv.outq_size
  case workers_len =>
    show (s.workers.set i .idle).length = N
    rw [List.length_set]
    exact inv.workers_len
  case src_t => exact inv.src_t
  case src_f => exact inv.src_f
  case inq_raw =>
    intro m hm
    rw [hcap2]
    exact inv.inq_raw m hm
  case busy_raw =>
    intro m hm
    rw [hcap2]
    rcases mem_busy_set s.workers i _ _ hw m hm with hm | hm
    · simp [phaseNodes] at hm
    · exact inv.busy_raw m hm
  case outq_proc =>
    intro m hm
    rw [hcap2]
    rcases mem_add_to_output _ _ _ inv.outq_size hm with hm | hm
    · subst hm
      exact ProcAt_process hraw hn
    · exact inv.outq_proc m hm
  case outq_sorted => exact add_to_output_sorted _ _ inv.outq_sorted
  case cursor_lo => exact inv.cursor_lo
  case cursor_le =>
    intro hf2
    rw [hcap2]
    exact inv.cursor_le hf2
  case cursor_done => exact inv.cursor_done
  case emitted_eq => exact inv.emitted_eq
  case terms_created => exact inv.terms_created
  case term_flag =>
    intro m hm ht
    unfold allNodes2 at hm
    simp only [List.mem_append] at hm
    have hmem : m ∈ allNodes2 s := by
      rcases hm with (hm | hm) | hm
      · exact mem_allNodes2_inq hm
      · rcases mem_busy_set s.workers i _ _ hw m hm with hm | hm
        · simp [phaseNodes] at hm
        · exact mem_allNodes2_busy hm
      · rcases mem_add_to_output _ _ _ inv.outq_size hm with hm | hm
        · subst hm
          have ht2 : n.is_the_last_node = true := ht
          rw [hn] at ht2
          exact Bool.noConfusion ht2
        · exact mem_allNodes2_out hm
    exact inv.term_flag m hmem ht
  case fin_flag =>
    intro h
    exact inv.fin_flag h

theorem Inv2_step_worker_push_last {t : α → α} {frames : List α}
    {N : Nat} {s : S2 α} (inv : Inv2 t frames N s) (i : Nat)
    (n : WorkNode α)
    (hw : s.workers.get? i = some (.busy n))
    (hn : n.is_the_last_node = true) :
    Inv2 t frames N { s with
      outQ := add_to_output_work_queue s.outQ n
      workers := s.workers.set i .idle
      is_there_any_work := false } := by
  have hmemn : n ∈ busyNodes s.workers := busy_mem_of_get? s.workers i n hw
  have hraw := inv.busy_raw n hmemn
  have hcap2 : cap2 frames ({ s with
      outQ := add_to_output_work_queue s.outQ n
      workers := s.workers.set i .idle
      is_there_any_work := false } : S2 α)
      = cap2 frames s := rfl
  constructor
  case inq_size => exact inv.inq_size
  case outq_size => exact add_to_output_consistent _ _ inv.outq_size
  case workers_len =>
    show (s.workers.set i .idle).length = N
    rw [List.length_set]
    exact inv.workers_len
  case src_t => exact inv.src_t
  case src_f => exact inv.src_f
  case inq_raw =>
    intro m hm
    rw [hcap2]
    exact inv.inq_raw m hm
  case busy_raw =>
    intro m hm
    rw [hcap2]
    rcases mem_busy_set s.workers i _ _ hw m hm with hm | hm
    · simp [phaseNodes] at hm
    · exact inv.busy_raw m hm
  case outq_proc =>
    intro m hm
    rw [hcap2]
    rcases mem_add_to_output _ _ _ inv.outq_size hm with hm | hm
    · subst hm
      exact ProcAt_of_RawAt_term hraw hn
    · exact inv.outq_proc m hm
  case outq_sorted => exact add_to_output_sorted _ _ inv.outq_sorted
  case cursor_lo => exact inv.cursor_lo
  case cursor_le =>
    intro hf2
    rw [hcap2]
    exact inv.cursor_le hf2
  case cursor_done => exact inv.cursor_done
  case emitted_eq => exact inv.emitted_eq
  case terms_created => exact inv.terms_created
  case term_flag =>
    intro m hm ht
    unfold allNodes2 at hm
    simp only [List.mem_append] at hm
    have hmem : m ∈ allNodes2 s := by
      rcases hm with (hm | hm) | hm
      · exact mem_allNodes2_inq hm
      · rcases mem_busy_set s.workers i _ _ hw m hm with hm | hm
        · simp [phaseNodes] at hm
        · exact mem_allNodes2_busy hm
      · rcases mem_add_to_output _ _ _ inv.outq_size hm with hm | hm
        · subst hm
          exact mem_allNodes2_busy hmemn
        · exact mem_allNodes2_out hm
    exact inv.term_flag m hmem ht
  case fin_flag =>
    intro h
    exact inv.fin_flag h

theorem Inv2_step_emit_frame {t : α → α} {frames : List α} {N : Nat}
    {s : S2 α} (inv : Inv2 t frames N s) (n : WorkNode α)
    (q : WorkQueue α) (hf : s.finished = false)
    (hh : get_head_id_from_output_work_queue s.outQ
      = some s.current_frame)
    (hq : remove_from_output_work_queue s.outQ = (some n, q))
    (hn : n.is_the_last_node = false) :
    Inv2 t frames N { s with
      outQ := q
      current_frame := s.current_frame + 1
      emitted := s.emitted ++ n.frame.toList } := by
  obtain ⟨hnodes, hsize⟩ := remove_output_spec _ _ _ hq
  have hgh := get_head_id_of_cons s.outQ n q.nodes hnodes
  have hid : n.frame_number = s.current_frame := by
    rw [hgh] at hh
    injection hh
  have hmemn : n ∈ s.outQ.nodes := by
    rw [hnodes]
    exact List.mem_cons_self n q.nodes
  obtain ⟨hp1, hp2, hp3⟩ := ProcAt_frame (inv.outq_proc n hmemn) hn
  have hcap_le := Inv2_cap_le inv
  have hc1 : 1 ≤ s.current_frame := inv.cursor_lo
  have hcM : s.current_frame ≤ frames.length := by omega
  have hclt : s.current_frame - 1 < frames.length := by omega
  have hgc : frames.get? (s.current_frame - 1)
      = some (frames.get ⟨s.current_frame - 1, hclt⟩) :=
    List.get?_eq_get hclt
  have hf1 : n.frame = (frames.get? (s.current_frame - 1)).map t := by
    rw [hp3, hid]
  have hframe : n.frame
      = some (t (frames.get ⟨s.current_frame - 1, hclt⟩)) := by
    rw [hf1, hgc]
    rfl
  have hcap2 : cap2 frames ({ s with
      outQ := q
      current_frame := s.current_frame + 1
      emitted := s.emitted ++ n.frame.toList } : S2 α)
      = cap2 frames s := rfl
  constructor
  case inq_size => exact inv.inq_size
  case outq_size =>
    show q.size = q.nodes.length
    have h2 := congrArg List.length hnodes
    simp at h2
    have := inv.outq_size
    omega
  case workers_len => exact inv.workers_len
  case src_t => exact inv.src_t
  case src_f => exact inv.src_f
  case inq_raw =>
    intro m hm
    rw [hcap2]
    exact inv.inq_raw m hm
  case busy_raw =>
    intro m hm
    rw [hcap2]
    exact inv.busy_raw m hm
  case outq_proc =>
    intro m hm
    rw [hcap2]
    refine inv.outq_proc m ?_
    rw [hnodes]
    exact List.mem_cons_of_mem n hm
  case outq_sorted =>
    have h0 := inv.outq_sorted
    rw [hnodes] at h0
    unfold OutSorted at h0 ⊢
    rw [List.pairwise_cons] at h0
    exact h0.2
  case cursor_lo =>
    show 1 ≤ s.current_frame + 1
    omega
  case cursor_le =>
    intro _
    rw [hcap2]
    show s.current_frame + 1 - 1 ≤ cap2 frames s
    omega
  case cursor_done =>
    intro hf2
    have hf3 : s.finished = true := hf2
    rw [hf] at hf3
    exact Bool.noConfusion hf3
  case emitted_eq =>
    show s.emitted ++ n.frame.toList
      = (frames.take (s.current_frame + 1 - 1)).map t
    have hgc2 : frames[s.current_frame - 1]?
        = some (frames.get ⟨s.current_frame - 1, hclt⟩) := by
      rw [← List.get?_eq_getElem?]
      exact hgc
    have hc2 : s.current_frame + 1 - 1 = s.current_frame - 1 + 1 := by
      omega
    rw [inv.emitted_eq, hframe, hc2, List.take_succ, hgc2,
      List.map_append]
    rfl
  case terms_created => exact inv.terms_created
  case term_flag =>
    intro m hm ht
    unfold allNodes2 at hm
    simp only [List.mem_append] at hm
    have hmem : m ∈ allNodes2 s := by
      rcases hm with (hm | hm) | hm
      · exact mem_allNodes2_inq hm
      · exact mem_allNodes2_busy hm
      · refine mem_allNodes2_out ?_
        rw [hnodes]
        exact List.mem_cons_of_mem n hm
    exact inv.term_flag m hmem ht
  case fin_flag =>
    intro h
    have h2 : s.finished = true := h
    rw [hf] at h2
    exact Bool.noConfusion h2

theorem Inv2_step_emit_last {t : α → α} {frames : List α} {N : Nat}
    {s : S2 α} (inv : Inv2 t frames N s) (n : WorkNode α)
    (q : WorkQueue α) (hf : s.finished = false)
    (hh : get_head_id_from_output_work_queue s.outQ
      = some s.current_frame)
    (hq : remove_from_output_work_queue s.outQ = (some n, q))
    (hn : n.is_the_last_node = true) :
    Inv2 t frames N { s with
      outQ := q
      finished := true } := by
  obtain ⟨hnodes, hsize⟩ := remove_output_spec _ _ _ hq
  have hgh := get_head_id_of_cons s.outQ n q.nodes hnodes
  have hid : n.frame_number = s.current_frame := by
    rw [hgh] at hh
    injection hh
  have hmemn : n ∈ s.outQ.nodes := by
    rw [hnodes]
    exact List.mem_cons_self n q.nodes
  obtain ⟨hpf, hpid⟩ := ProcAt_term (inv.outq_proc n hmemn) hn
  have hcap2 : cap2 frames ({ s with
      outQ := q
      finished := true } : S2 α) = cap2 frames s := rfl
  constructor
  case inq_size => exact inv.inq_size
  case outq_size =>
    show q.size = q.nodes.length
    have h2 := congrArg List.length hnodes
    simp at h2
    have := inv.outq_size
    omega
  case workers_len => exact inv.workers_len
  case src_t => exact inv.src_t
  case src_f => exact inv.src_f
  case inq_raw =>
    intro m hm
    rw [hcap2]
    exact inv.inq_raw m hm
  case busy_raw =>
    intro m hm
    rw [hcap2]
    exact inv.busy_raw m hm
  case outq_proc =>
    intro m hm
    rw [hcap2]
    refine inv.outq_proc m ?_
    rw [hnodes]
    exact List.mem_cons_of_mem n hm
  case outq_sorted =>
    have h0 := inv.outq_sorted
    rw [hnodes] at h0
    unfold OutSorted at h0 ⊢
    rw [List.pairwise_cons] at h0
    exact h0.2
  case cursor_lo => exact inv.cursor_lo
  case cursor_le =>
    intro hf2
    exact Bool.noConfusion (show true = false from hf2)
  case cursor_done =>
    intro _
    show s.current_frame = frames.length + 1
    omega
  case emitted_eq => exact inv.emitted_eq
  case terms_created => exact inv.terms_created
  case term_flag =>
    intro m hm ht
    unfold allNodes2 at hm
    simp only [List.mem_append] at hm
    have hmem : m ∈ allNodes2 s := by
      rcases hm with (hm | hm) | hm
      · exact mem_allNodes2_inq hm
      · exact mem_allNodes2_busy hm
      · refine mem_allNodes2_out ?_
        rw [hnodes]
        exact List.mem_cons_of_mem n hm
    exact inv.term_flag m hmem ht
  case fin_flag =>
    intro _
    exact inv.term_flag n (mem_allNodes2_out hmemn) hn

/-- The invariant is preserved by every transition of the cooperative
pipeline. -/
theorem Inv2_step {t : α → α} {frames : List α} {N : Nat} {s s2 : S2 α}
    (inv : Inv2 t frames N s) (hstep : Step2 t s s2) :
    Inv2 t frames N s2 := by
  cases hstep with
  | ingest_frame p rest hf ha hp =>
    exact Inv2_step_ingest_frame inv p rest hf ha hp
  | ingest_empty hf ha hp =>
    exact Inv2_step_ingest_empty inv hf ha hp
  | worker_pop i n q ha hw hq =>
    exact Inv2_step_worker_pop inv i n q ha hw hq
  | worker_push_frame i n hw hn =>
    exact Inv2_step_worker_push_frame inv i n hw hn
  | worker_push_last i n hw hn =>
    exact Inv2_step_worker_push_last inv i n hw hn
  | emit_frame n q hf hh hq hn =>
    exact Inv2_step_emit_frame inv n q hf hh hq hn
  | emit_last n q hf hh hq hn =>
    exact Inv2_step_emit_last inv n q hf hh hq hn

/-- Every reachable state of the cooperative pipeline satisfies the
invariant. -/
theorem Inv2_reach {t : α → α} {frames : List α} {N : Nat} {s : S2 α}
    (h : Reach2 t frames N s) : Inv2 t frames N s := by
  induction h with
  | init => exact Inv2_init t frames N
  | step s s2 hr hstep ih => exact Inv2_step ih hstep

/-! ## FIFO behaviour of the input queue under operation sequences -/

theorem add_to_input_literal (nodes : List (WorkNode α)) (size : Nat)
    (n : WorkNode α) (h : size = nodes.length) :
    add_to_input_work_queue ⟨nodes, size⟩ n
      = ⟨nodes ++ [n], size + 1⟩ := by
  unfold add_to_input_work_queue
  split
  · rename_i h0
    have h1 : size = 0 := h0
    rw [h1] at h
    have h2 : nodes = [] := List.length_eq_zero.mp h.symm
    subst h2
    rfl
  · rfl

theorem runQueueOps_fifo (ops : List (QueueOp α)) :
    ∀ (nodes : List (WorkNode α)) (size : Nat), size = nodes.length →
      (runQueueOps ⟨nodes, size⟩ ops).2
          ++ (runQueueOps ⟨nodes, size⟩ ops).1.nodes
        = nodes ++ pushedNodes ops := by
  induction ops with
  | nil =>
    intro nodes size h
    simp [runQueueOps, pushedNodes]
  | cons op ops ih =>
    intro nodes size h
    cases op with
    | push n =>
      have ha := add_to_input_literal nodes size n h
      show (runQueueOps (add_to_input_work_queue ⟨nodes, size⟩ n) ops).2
          ++ (runQueueOps (add_to_input_work_queue ⟨nodes, size⟩ n)
              ops).1.nodes
        = nodes ++ pushedNodes (.push n :: ops)
      rw [ha, ih (nodes ++ [n]) (size + 1) (by simp [h])]
      show (nodes ++ [n]) ++ pushedNodes ops
        = nodes ++ (n :: pushedNodes ops)
      simp
    | pop =>
      cases nodes with
      | nil =>
        have h0 : size = 0 := by simpa using h
        subst h0
        show (runQueueOps ⟨[], 0⟩ ops).2
            ++ (runQueueOps ⟨[], 0⟩ ops).1.nodes
          = [] ++ pushedNodes ops
        exact ih [] 0 rfl
      | cons m rest =>
        have h2 : size - 1 = rest.length := by
          simp at h
          omega
        have := ih rest (size - 1) h2
        show (m :: (runQueueOps ⟨rest, size - 1⟩ ops).2)
            ++ (runQueueOps ⟨rest, size - 1⟩ ops).1.nodes
          = (m :: rest) ++ pushedNodes ops
        rw [List.cons_append, this]
        rfl

/-! ## The concrete demonstration runs are real executions -/

theorem reach_s1d9 : Reach1 Nat.succ [7] 1 s1d9 := by
  refine Reach1.step s1d8 s1d9 ?_ ?_
  refine Reach1.step s1d7 s1d8 ?_ ?_
  refine Reach1.step s1d6 s1d7 ?_ ?_
  refine Reach1.step s1d5 s1d6 ?_ ?_
  refine Reach1.step s1d4 s1d5 ?_ ?_
  refine Reach1.step s1d3 s1d4 ?_ ?_
  refine Reach1.step s1d2 s1d3 ?_ ?_
  refine Reach1.step s1d1 s1d2 ?_ ?_
  refine Reach1.step s1d0 s1d1 ?_ ?_
  · exact Reach1.init
  · exact Step1.ingest_frame s1d0 7 [] rfl rfl
  · exact Step1.ingest_empty s1d1 1 rfl rfl rfl
  · exact Step1.ingest_sentinel s1d2 0 rfl
  · exact Step1.worker_pop s1d3 0 frameNodeA
      (remove_from_input_work_queue s1d3.inQ).2 rfl rfl
  · exact Step1.worker_push_frame s1d4 0 frameNodeA rfl rfl
  · exact Step1.worker_pop s1d5 0 termNodeA
      (remove_from_input_work_queue s1d5.inQ).2 rfl rfl
  · exact Step1.worker_push_last s1d6 0 termNodeA rfl rfl
  · exact Step1.emit_frame s1d7 (process_node Nat.succ frameNodeA)
      (remove_from_output_work_queue s1d7.outQ).2 rfl rfl rfl rfl
  · exact Step1.emit_last s1d8 termNodeA
      (remove_from_output_work_queue s1d8.outQ).2 rfl rfl rfl rfl

theorem reach_s2e3 : Reach2 Nat.succ ([] : List Nat) 2 s2e3 := by
  refine Reach2.step s2e2 s2e3 ?_ ?_
  refine Reach2.step s2e1 s2e2 ?_ ?_
  refine Reach2.step s2e0 s2e1 ?_ ?_
  · exact Reach2.init
  · exact Step2.ingest_empty s2e0 rfl rfl rfl
  · exact Step2.worker_pop s2e1 0 termNodeB
      (remove_from_input_work_queue s2e1.inQ).2 rfl rfl rfl
  · exact Step2.worker_push_last s2e2 0 termNodeB rfl rfl

theorem reach_s2e4 : Reach2 Nat.succ ([] : List Nat) 2 s2e4 :=
  Reach2.step s2e3 s2e4 reach_s2e3
    (Step2.emit_last s2e3 termNodeB
      (remove_from_output_work_queue s2e3.outQ).2 rfl rfl rfl rfl)

theorem key_RawAt_iff {frames : List α} {cap : Nat} {n : WorkNode α}
    (hcl : cap ≤ frames.length) (hrw : RawAt frames cap n) :
    n.is_the_last_node = true ↔ n.frame = none := by
  cases ht : n.is_the_last_node with
  | true =>
    simp [(RawAt_term hrw ht).1]
  | false =>
    obtain ⟨h1, h2, h3⟩ := RawAt_frame hrw ht
    have hlt : n.frame_number - 1 < frames.length := by omega
    constructor
    · intro hc
      exact Bool.noConfusion hc
    · intro hc
      rw [List.get?_eq_get hlt] at h3
      rw [h3] at hc
      exact Option.noConfusion hc

theorem key_ProcAt_iff {t : α → α} {frames : List α} {cap : Nat}
    {n : WorkNode α} (hcl : cap ≤ frames.length)
    (hpr : ProcAt t frames cap n) :
    n.is_the_last_node = true ↔ n.frame = none := by
  cases ht : n.is_the_last_node with
  | true =>
    simp [(ProcAt_term hpr ht).1]
  | false =>
    obtain ⟨h1, h2, h3⟩ := ProcAt_frame hpr ht
    have hlt : n.frame_number - 1 < frames.length := by omega
    constructor
    · intro hc
      exact Bool.noConfusion hc
    · intro hc
      rw [List.get?_eq_get hlt] at h3
      rw [h3] at hc
      exact Option.noConfusion hc

theorem reach_s1f7 : Reach1 Nat.succ ([] : List Nat) 2 s1f7 := by
  refine Reach1.step s1f6 s1f7 ?_ ?_
  refine Reach1.step s1f5 s1f6 ?_ ?_
  refine Reach1.step s1f4 s1f5 ?_ ?_
  refine Reach1.step s1f3 s1f4 ?_ ?_
  refine Reach1.step s1f2 s1f3 ?_ ?_
  refine Reach1.step s1f1 s1f2 ?_ ?_
  refine Reach1.step s1f0 s1f1 ?_ ?_
  · exact Reach1.init
  · exact Step1.ingest_empty s1f0 2 rfl rfl rfl
  · exact Step1.ingest_sentinel s1f1 1 rfl
  · exact Step1.ingest_sentinel s1f2 0 rfl
  · exact Step1.worker_pop s1f3 0 termNodeC
      (remove_from_input_work_queue s1f3.inQ).2 rfl rfl
  · exact Step1.worker_pop s1f4 1 termNodeC
      (remove_from_input_work_queue s1f4.inQ).2 rfl rfl
  · exact Step1.worker_push_last s1f5 0 termNodeC rfl rfl
  · exact Step1.worker_push_last s1f6 1 termNodeC rfl rfl

/-! ## The claims -/

/-- C1: For every input stream and every worker count, the sequence of
payloads the emit stage hands to the sink equals the transform applied
to the frames of the source in their original capture order.  In both
pipeline variants, at every reachable state the emitted sequence is the
transformed prefix of the stream selected by the emit cursor — so the
item with sequence id k+1 is never released before the item with id k —
and at completion it equals the whole transformed stream. -/
theorem C1_order_preservation :
    (∀ (α : Type) (t : α → α) (frames : List α) (N : Nat) (s : S1 α),
      Reach1 t frames N s →
        s.emitted = (frames.take s.current_frame).map t
          ∧ (Completed1 s → s.emitted = frames.map t))
    ∧ (∀ (α : Type) (t : α → α) (frames : List α) (N : Nat) (s : S2 α),
      Reach2 t frames N s →
        s.emitted = (frames.take (s.current_frame - 1)).map t
          ∧ (Completed2 s → s.emitted = frames.map t)) := by
  constructor
  · intro α t frames N s hr
    have inv := Inv1_reach hr
    refine ⟨inv.emitted_eq, ?_⟩
    intro hc
    have hcd := inv.cursor_done hc.2.2
    rw [inv.emitted_eq, hcd.1, List.take_of_length_le (by omega)]
  · intro α t frames N s hr
    have inv := Inv2_reach hr
    refine ⟨inv.emitted_eq, ?_⟩
    intro hc
    have hcd := inv.cursor_done hc
    rw [inv.emitted_eq, hcd,
      show frames.length + 1 - 1 = frames.length from rfl,
      List.take_length]

theorem C1_order_preservation_witness :
    s1d9.emitted = (([7] : List Nat).take s1d9.current_frame).map Nat.succ
    ∧ s1d9.emitted = ([7] : List Nat).map Nat.succ
    ∧ s2e4.emitted = ([] : List Nat).map Nat.succ :=
  ⟨(C1_order_preservation.1 Nat Nat.succ [7] 1 s1d9 reach_s1d9).1,
   (C1_order_preservation.1 Nat Nat.succ [7] 1 s1d9 reach_s1d9).2
     (by decide),
   (C1_order_preservation.2 Nat Nat.succ [] 2 s2e4 reach_s2e4).2 rfl⟩

/-- C2: in the staged pipeline, no frame is ever removed from the input
queue or transformed more than once, at completion every one of the M
frames has been removed and transformed exactly once, and ids beyond the
stream are never touched. -/
theorem C2_exactly_once :
    ∀ (α : Type) (t : α → α) (frames : List α) (N : Nat) (s : S1 α),
      Reach1 t frames N s →
        (∀ k, s.popCount k ≤ 1 ∧ s.procCount k ≤ 1)
        ∧ (Completed1 s → ∀ k, 1 ≤ k → k ≤ frames.length →
            s.popCount k = 1 ∧ s.procCount k = 1)
        ∧ (∀ k, frames.length < k →
            s.popCount k = 0 ∧ s.procCount k = 0) := by
  intro α t frames N s hr
  have inv := Inv1_reach hr
  refine ⟨?_, ?_, ?_⟩
  · intro k
    have hpop := inv.pop_eq k
    have hproc := inv.proc_eq k
    by_cases hk0 : k = 0
    · obtain ⟨z1, z2, z3, z4⟩ := inv.cnt_zero_out k (Or.inl hk0)
      omega
    by_cases hkc : k ≤ cap1 frames s
    · have := inv.ledger k (by omega) hkc
      omega
    · obtain ⟨z1, z2, z3, z4⟩ := inv.cnt_zero_out k (Or.inr (by omega))
      omega
  · intro hc k hk1 hkM
    obtain ⟨hing, hwork, hdone⟩ := hc
    have hcap : cap1 frames s = frames.length := cap1_sending hing
    have hcd := inv.cursor_done hdone
    have hem : emitCnt frames.length s.current_frame k = 1 := by
      unfold emitCnt
      rw [if_pos ⟨hk1, by omega, hkM⟩]
    have hld := inv.ledger k hk1 (by omega)
    have hpop := inv.pop_eq k
    have hproc := inv.proc_eq k
    omega
  · intro k hk
    have hcaple := Inv1_cap_le inv
    obtain ⟨z1, z2, z3, z4⟩ := inv.cnt_zero_out k (Or.inr (by omega))
    have hpop := inv.pop_eq k
    have hproc := inv.proc_eq k
    omega

theorem C2_exactly_once_witness :
    (s1d9.popCount 1 ≤ 1 ∧ s1d9.procCount 1 ≤ 1)
    ∧ (s1d9.popCount 1 = 1 ∧ s1d9.procCount 1 = 1)
    ∧ (s1d9.popCount 5 = 0 ∧ s1d9.procCount 5 = 0) :=
  ⟨(C2_exactly_once Nat Nat.succ [7] 1 s1d9 reach_s1d9).1 1,
   (C2_exactly_once Nat Nat.succ [7] 1 s1d9 reach_s1d9).2.1 (by decide)
     1 (by decide) (by decide),
   (C2_exactly_once Nat Nat.succ [7] 1 s1d9 reach_s1d9).2.2 5 (by decide)⟩

/-- C3 counterexample: in the v2 cooperative pipeline a completed run
with two workers creates exactly one terminal work item, not one per
worker — the claim that exactly N terminal items are pushed fails at
N = 2, where only 1 terminal item is ever created. -/
theorem C3_counterexample :
    Reach2 Nat.succ ([] : List Nat) 2 s2e4 ∧ Completed2 s2e4
      ∧ s2e4.termsCreated = 1 ∧ ¬ s2e4.termsCreated = 2 :=
  ⟨reach_s2e4, rfl, rfl, by decide⟩

/-- C3 amended: in the staged (pthread-style) variant, end of stream
produces exactly N terminal items and at completion every worker has
consumed exactly one of them and stopped; in the cooperative v2 variant
a single terminal item is created (consumed by one worker, which stops
the others through the shared flag).  In both variants the final drain
leaves the reassembly buffer empty. -/
theorem C3_amended_termination :
    (∀ (α : Type) (t : α → α) (frames : List α) (N : Nat) (s : S1 α),
      Reach1 t frames N s → Completed1 s →
        s.termsCreated = N
        ∧ (∀ i, i < N → s.termPops i = 1)
        ∧ drain_output_work_queue s.outQ = emptyWorkQueue α)
    ∧ (∀ (α : Type) (t : α → α) (frames : List α) (N : Nat) (s : S2 α),
      Reach2 t frames N s →
        s.termsCreated ≤ 1
        ∧ (Completed2 s → s.termsCreated = 1
            ∧ drain_output_work_queue s.outQ = emptyWorkQueue α)) := by
  constructor
  · intro α t frames N s hr hc
    have inv := Inv1_reach hr
    obtain ⟨hing, hwork, hdone⟩ := hc
    refine ⟨?_, ?_, drain_empty _ inv.outq_size⟩
    · have := inv.terms_sending 0 hing
      omega
    · intro i hi
      have hlen : i < s.workers.length := by
        rw [inv.workers_len]
        omega
      have hget : s.workers.get? i = some (s.workers.get ⟨i, hlen⟩) :=
        List.get?_eq_get hlen
      have hmem : s.workers.get ⟨i, hlen⟩ ∈ s.workers :=
        List.get_mem s.workers i hlen
      have hdonei := hwork _ hmem
      rw [hdonei] at hget
      exact inv.term_pops_done i hget
  · intro α t frames N s hr
    have inv := Inv2_reach hr
    constructor
    · rw [inv.terms_created]
      split <;> omega
    · intro hc
      have hff := inv.fin_flag hc
      refine ⟨?_, drain_empty _ inv.outq_size⟩
      rw [inv.terms_created, hff]
      rfl

theorem C3_amended_termination_witness :
    (s1d9.termsCreated = 1 ∧ s1d9.termPops 0 = 1
      ∧ drain_output_work_queue s1d9.outQ = emptyWorkQueue Nat)
    ∧ (s2e4.termsCreated ≤ 1 ∧ s2e4.termsCreated = 1
      ∧ drain_output_work_queue s2e4.outQ = emptyWorkQueue Nat) := by
  have h1 := C3_amended_termination.1 Nat Nat.succ [7] 1 s1d9 reach_s1d9
    (by decide)
  have h2 := C3_amended_termination.2 Nat Nat.succ [] 2 s2e4 reach_s2e4
  exact ⟨⟨h1.1, h1.2.1 0 (by decide), h1.2.2⟩,
    ⟨h2.1, (h2.2 rfl).1, (h2.2 rfl).2⟩⟩

/-- C4: the reassembly buffer is always sorted ascending by frame id:
`add_to_output_work_queue` preserves sortedness, the head of a sorted
buffer carries the minimum id, the buffers of both pipeline variants are
sorted at every reachable state, and inserting ids {2,0,1} in that
arrival order then removing the head whenever it matches the expected
sequence 0,1,2 yields the items in order 0,1,2. -/
theorem C4_sorted_reassembly :
    (∀ (α : Type) (q : WorkQueue α) (n : WorkNode α),
      OutSorted q.nodes →
        OutSorted (add_to_output_work_queue q n).nodes)
    ∧ (∀ (α : Type) (n : WorkNode α) (rest : List (WorkNode α)),
      OutSorted (n :: rest) → ∀ m ∈ n :: rest,
        n.frame_number ≤ m.frame_number)
    ∧ (∀ (α : Type) (t : α → α) (frames : List α) (N : Nat) (s : S1 α),
      Reach1 t frames N s → OutSorted s.outQ.nodes)
    ∧ (∀ (α : Type) (t : α → α) (frames : List α) (N : Nat) (s : S2 α),
      Reach2 t frames N s → OutSorted s.outQ.nodes)
    ∧ remove_in_expected_order
        (add_to_output_work_queue (add_to_output_work_queue
          (add_to_output_work_queue (emptyWorkQueue Nat)
            { frame := some 20, frame_number := 2,
              is_the_last_node := false })
          { frame := some 10, frame_number := 0,
            is_the_last_node := false })
          { frame := some 11, frame_number := 1,
            is_the_last_node := false })
        [0, 1, 2]
      = [{ frame := some 10, frame_number := 0,
           is_the_last_node := false },
         { frame := some 11, frame_number := 1,
           is_the_last_node := false },
         { frame := some 20, frame_number := 2,
           is_the_last_node := false }] := by
  refine ⟨?_, ?_, ?_, ?_, ?_⟩
  · intro α q n h
    exact add_to_output_sorted q n h
  · intro α n rest h
    exact sorted_head_min (n :: rest) h n rest rfl
  · intro α t frames N s hr
    exact (Inv1_reach hr).outq_sorted
  · intro α t frames N s hr
    exact (Inv2_reach hr).outq_sorted
  · decide

theorem C4_sorted_reassembly_witness :
    OutSorted (add_to_output_work_queue (emptyWorkQueue Nat)
      frameNodeA).nodes
    ∧ termNodeC.frame_number ≤ termNodeC.frame_number
    ∧ OutSorted s1d9.outQ.nodes
    ∧ OutSorted s2e4.outQ.nodes :=
  ⟨C4_sorted_reassembly.1 Nat (emptyWorkQueue Nat) frameNodeA
     (by exact List.Pairwise.nil),
   C4_sorted_reassembly.2.1 Nat termNodeC [] (by simp [OutSorted])
     termNodeC (by simp),
   C4_sorted_reassembly.2.2.1 Nat Nat.succ [7] 1 s1d9 reach_s1d9,
   C4_sorted_reassembly.2.2.2.1 Nat Nat.succ [] 2 s2e4 reach_s2e4⟩

/-- C5 counterexample: `add_to_output_work_queue` does not reject an
insertion whose frame id is already present — the duplicate is inserted
in front of its equal — and in the staged pipeline a state is reachable
(two workers, empty stream) whose reassembly buffer holds two nodes with
the same frame id 1 at the same time. -/
theorem C5_counterexample :
    (add_to_output_work_queue
        (⟨[{ frame := some 5, frame_number := 1,
             is_the_last_node := false }], 1⟩ : WorkQueue Nat)
        { frame := some 6, frame_number := 1,
          is_the_last_node := false }).nodes
      = [{ frame := some 6, frame_number := 1,
           is_the_last_node := false },
         { frame := some 5, frame_number := 1,
           is_the_last_node := false }]
    ∧ Reach1 Nat.succ ([] : List Nat) 2 s1f7
    ∧ s1f7.outQ.nodes.countP (fun n => n.frame_number == 1) = 2 :=
  ⟨by decide, reach_s1f7, by decide⟩

/-- C5 amended: insertion into the reassembly buffer always succeeds —
the size counter grows even for a duplicate id, nothing is rejected —
and what the staged pipeline does guarantee is that the ids of the
NON-terminal items in the buffer are pairwise distinct (each id occurs
at most once); the terminal sentinels of the staged variant all share
one id, so equal-id terminal nodes can coexist (run C above). -/
theorem C5_amended_no_duplicate_frames :
    (∀ (α : Type) (q : WorkQueue α) (n : WorkNode α),
      (add_to_output_work_queue q n).size = q.size + 1)
    ∧ (∀ (α : Type) (t : α → α) (frames : List α) (N : Nat) (s : S1 α),
      Reach1 t frames N s → ∀ k, cntId k s.outQ.nodes ≤ 1) := by
  constructor
  · intro α q n
    exact add_to_output_size q n
  · intro α t frames N s hr k
    have inv := Inv1_reach hr
    by_cases hk0 : k = 0
    · obtain ⟨z1, z2, z3, z4⟩ := inv.cnt_zero_out k (Or.inl hk0)
      omega
    by_cases hkc : k ≤ cap1 frames s
    · have := inv.ledger k (by omega) hkc
      omega
    · obtain ⟨z1, z2, z3, z4⟩ := inv.cnt_zero_out k (Or.inr (by omega))
      omega

theorem C5_amended_no_duplicate_frames_witness :
    (add_to_output_work_queue (emptyWorkQueue Nat) termNodeC).size
        = (emptyWorkQueue Nat).size + 1
    ∧ cntId 1 s1d9.outQ.nodes ≤ 1 :=
  ⟨C5_amended_no_duplicate_frames.1 Nat (emptyWorkQueue Nat) termNodeC,
   C5_amended_no_duplicate_frames.2 Nat Nat.succ [7] 1 s1d9 reach_s1d9 1⟩

/-- C6: the input work queue is FIFO: `add_to_input_work_queue` appends
the new node at the tail (given a consistent size counter),
`remove_from_input_work_queue` returns the head, and any sequence of
push/pop operations started from the empty queue yields the popped nodes
followed by the remaining nodes in exactly the order they were pushed. -/
theorem C6_input_fifo :
    (∀ (α : Type) (q : WorkQueue α) (n : WorkNode α),
      q.size = q.nodes.length →
        (add_to_input_work_queue q n).nodes = q.nodes ++ [n])
    ∧ (∀ (α : Type) (q q2 : WorkQueue α) (n : WorkNode α),
      remove_from_input_work_queue q = (some n, q2) →
        q.nodes = n :: q2.nodes)
    ∧ (∀ (α : Type) (ops : List (QueueOp α)),
      (runQueueOps (emptyWorkQueue α) ops).2
          ++ (runQueueOps (emptyWorkQueue α) ops).1.nodes
        = pushedNodes ops) := by
  refine ⟨?_, ?_, ?_⟩
  · intro α q n h
    exact add_to_input_nodes q n h
  · intro α q q2 n h
    exact (remove_input_spec q q2 n h).1
  · intro α ops
    have h := runQueueOps_fifo ops [] 0 rfl
    rw [List.nil_append] at h
    exact h

theorem C6_input_fifo_witness :
    (add_to_input_work_queue (emptyWorkQueue Nat) frameNodeA).nodes
        = (emptyWorkQueue Nat).nodes ++ [frameNodeA]
    ∧ (⟨[frameNodeA], 1⟩ : WorkQueue Nat).nodes
        = frameNodeA :: (⟨[], 0⟩ : WorkQueue Nat).nodes
    ∧ (runQueueOps (emptyWorkQueue Nat)
          [QueueOp.push frameNodeA, QueueOp.pop]).2
        ++ (runQueueOps (emptyWorkQueue Nat)
          [QueueOp.push frameNodeA, QueueOp.pop]).1.nodes
      = pushedNodes [QueueOp.push frameNodeA, QueueOp.pop] :=
  ⟨C6_input_fifo.1 Nat (emptyWorkQueue Nat) frameNodeA rfl,
   C6_input_fifo.2.1 Nat ⟨[frameNodeA], 1⟩ ⟨[], 0⟩ frameNodeA rfl,
   C6_input_fifo.2.2 Nat [QueueOp.push frameNodeA, QueueOp.pop]⟩

/-- C7: a work item carries a payload exactly when it is not a terminal
sentinel: in every reachable state of either pipeline variant, every
node anywhere in the system (input queue, held by a worker, or in the
reassembly buffer) has `is_the_last_node = true` iff its frame payload
is absent. -/
theorem C7_payload_iff_nonterminal :
    (∀ (α : Type) (t : α → α) (frames : List α) (N : Nat) (s : S1 α),
      Reach1 t frames N s → ∀ n ∈ allNodes1 s,
        (n.is_the_last_node = true ↔ n.frame = none))
    ∧ (∀ (α : Type) (t : α → α) (frames : List α) (N : Nat) (s : S2 α),
      Reach2 t frames N s → ∀ n ∈ allNodes2 s,
        (n.is_the_last_node = true ↔ n.frame = none)) := by
  constructor
  · intro α t frames N s hr n hn
    have inv := Inv1_reach hr
    have hcl := Inv1_cap_le inv
    unfold allNodes1 at hn
    simp only [List.mem_append] at hn
    rcases hn with (hn | hn) | hn
    · exact key_RawAt_iff hcl (inv.inq_raw n hn)
    · exact key_RawAt_iff hcl (inv.busy_raw n hn)
    · exact key_ProcAt_iff hcl (inv.outq_proc n hn)
  · intro α t frames N s hr n hn
    have inv := Inv2_reach hr
    have hcl := Inv2_cap_le inv
    unfold allNodes2 at hn
    simp only [List.mem_append] at hn
    rcases hn with (hn | hn) | hn
    · exact key_RawAt_iff hcl (inv.inq_raw n hn)
    · exact key_RawAt_iff hcl (inv.busy_raw n hn)
    · exact key_ProcAt_iff hcl (inv.outq_proc n hn)

theorem C7_payload_iff_nonterminal_witness :
    (termNodeC.is_the_last_node = true ↔ termNodeC.frame = none)
    ∧ (termNodeB.is_the_last_node = true ↔ termNodeB.frame = none) :=
  ⟨C7_payload_iff_nonterminal.1 Nat Nat.succ [] 2 s1f7 reach_s1f7
     termNodeC (by decide),
   C7_payload_iff_nonterminal.2 Nat Nat.succ [] 2 s2e3 reach_s2e3
     termNodeB (by decide)⟩

/-- C8 counterexample: the mains perform no validation of the worker
count — with 0 (or a negative) requested workers no error is reported
and the pipeline still runs, in both parallel variants. -/
theorem C8_counterexample :
    (main_openmp 0 false false).error_reported = false
    ∧ (main_openmp 0 false false).pipeline_ran = true
    ∧ (main_openmp (-3) false false).error_reported = false
    ∧ (main_openmp_v2 0 false false).error_reported = false
    ∧ (main_openmp_v2 0 false false).pipeline_ran = true := by
  exact ⟨rfl, rfl, rfl, rfl, rfl⟩

/-- C8 amended: for every worker count (including zero and negative
values) and every capture-open outcome, neither parallel main reports an
error or aborts before the pipeline: the pipeline is started
unconditionally. -/
theorem C8_amended_no_validation :
    ∀ (w : Int) (fo co : Bool),
      (main_openmp w fo co).error_reported = false
      ∧ (main_openmp w fo co).aborted_before_pipeline = false
      ∧ (main_openmp w fo co).pipeline_ran = true
      ∧ (main_openmp_v2 w fo co).error_reported = false
      ∧ (main_openmp_v2 w fo co).aborted_before_pipeline = false
      ∧ (main_openmp_v2 w fo co).pipeline_ran = true := by
  intro w fo co
  exact ⟨rfl, rfl, rfl, rfl, rfl, rfl⟩

/-- C9 counterexample: when opening the source fails both as file and
as camera, no error is reported and the processing loop still runs —
in the staged parallel main and in the sequential main alike. -/
theorem C9_counterexample :
    (main_openmp 2 false false).capture_opened = false
    ∧ (main_openmp 2 false false).error_reported = false
    ∧ (main_openmp 2 false false).pipeline_ran = true
    ∧ (main_seq false false).capture_opened = false
    ∧ (main_seq false false).error_reported = false
    ∧ (main_seq false false).pipeline_ran = true := by
  exact ⟨rfl, rfl, rfl, rfl, rfl, rfl⟩

/-- C9 amended: every main retries the argument as a camera index when
the file open fails — the capture ends up opened iff either attempt
succeeds — and regardless of the outcome no error is reported, nothing
aborts, and the processing loop runs. -/
theorem C9_amended_open_retry :
    ∀ (fo co : Bool) (w : Int),
      (main_seq fo co).capture_opened = (fo || co)
      ∧ (main_seq fo co).error_reported = false
      ∧ (main_seq fo co).aborted_before_pipeline = false
      ∧ (main_seq fo co).pipeline_ran = true
      ∧ (main_openmp w fo co).capture_opened = (fo || co)
      ∧ (main_openmp_v2 w fo co).capture_opened = (fo || co) := by
  intro fo co w
  cases fo <;> exact ⟨rfl, rfl, rfl, rfl, rfl, rfl⟩

/-- C10: the size counters of the queues track the number of stored
nodes: both insert routines increment the counter by exactly one and
preserve size/length consistency, both remove routines decrement it by
one, and in every reachable state of either pipeline variant the input
queue's and the reassembly buffer's counters equal the lengths of their
node lists. -/
theorem C10_size_counters :
    (∀ (α : Type) (q : WorkQueue α) (n : WorkNode α),
      (add_to_input_work_queue q n).size = q.size + 1
      ∧ (add_to_output_work_queue q n).size = q.size + 1)
    ∧ (∀ (α : Type) (q : WorkQueue α) (n : WorkNode α),
      q.size = q.nodes.length →
        (add_to_input_work_queue q n).size
            = (add_to_input_work_queue q n).nodes.length
        ∧ (add_to_output_work_queue q n).size
            = (add_to_output_work_queue q n).nodes.length)
    ∧ (∀ (α : Type) (q q2 : WorkQueue α) (n : WorkNode α),
      remove_from_input_work_queue q = (some n, q2) →
        q2.size = q.size - 1)
    ∧ (∀ (α : Type) (q q2 : WorkQueue α) (n : WorkNode α),
      remove_from_output_work_queue q = (some n, q2) →
        q2.size = q.size - 1)
    ∧ (∀ (α : Type) (t : α → α) (frames : List α) (N : Nat) (s : S1 α),
      Reach1 t frames N s →
        s.inQ.size = s.inQ.nodes.length
        ∧ s.outQ.size = s.outQ.nodes.length)
    ∧ (∀ (α : Type) (t : α → α) (frames : List α) (N : Nat) (s : S2 α),
      Reach2 t frames N s →
        s.inQ.size = s.inQ.nodes.length
        ∧ s.outQ.size = s.outQ.nodes.length) := by
  refine ⟨?_, ?_, ?_, ?_, ?_, ?_⟩
  · intro α q n
    exact ⟨add_to_input_size q n, add_to_output_size q n⟩
  · intro α q n h
    exact ⟨add_to_input_consistent q n h, add_to_output_consistent q n h⟩
  · intro α q q2 n h
    exact (remove_input_spec q q2 n h).2
  · intro α q q2 n h
    exact (remove_output_spec q q2 n h).2
  · intro α t frames N s hr
    have inv := Inv1_reach hr
    exact ⟨inv.inq_size, inv.outq_size⟩
  · intro α t frames N s hr
    have inv := Inv2_reach hr
    exact ⟨inv.inq_size, inv.outq_size⟩

theorem C10_size_counters_witness :
    ((add_to_input_work_queue (emptyWorkQueue Nat) termNodeA).size
        = (emptyWorkQueue Nat).size + 1
      ∧ (add_to_output_work_queue (emptyWorkQueue Nat) termNodeA).size
        = (emptyWorkQueue Nat).size + 1)
    ∧ ((⟨[], 0⟩ : WorkQueue Nat).size
        = (⟨[termNodeA], 1⟩ : WorkQueue Nat).size - 1)
    ∧ (s1d9.inQ.size = s1d9.inQ.nodes.length
        ∧ s1d9.outQ.size = s1d9.outQ.nodes.length)
    ∧ (s2e4.inQ.size = s2e4.inQ.nodes.length
        ∧ s2e4.outQ.size = s2e4.outQ.nodes.length) :=
  ⟨C10_size_counters.1 Nat (emptyWorkQueue Nat) termNodeA,
   C10_size_counters.2.2.1 Nat ⟨[termNodeA], 1⟩ ⟨[], 0⟩ termNodeA rfl,
   C10_size_counters.2.2.2.2.1 Nat Nat.succ [7] 1 s1d9 reach_s1d9,
   C10_size_counters.2.2.2.2.2 Nat Nat.succ [] 2 s2e4 reach_s2e4⟩

end LaneDetect
